import Mathlib

/-!
Shallow embedding of the piece-table text editor implemented in `src/editor.c`
(the types `Buffer`, `Piece`, `Span`, `Change`, `Action`, `Editor` and the
operations on them), together with theorems settling a list of claims about
the program.

Modelling conventions:

* Machine pointers are replaced by small identifiers.  A piece lives in an
  association-list arena under its unique `index` (the C code assigns the
  sentinels the indices 1 and 2 and gives fresh pieces `++piece_count`); the
  null pointer is the identifier 0.  Actions are stored the same way under
  identifiers counted by `action_count`.
* A pointer into buffer storage (`char *content`) becomes a pair of a buffer
  identifier and a byte offset (`Ptr`).  The mmap-ed original file buffer
  (`ed->buf`) has identifier 1; heap buffers get identifiers from 2 on.
  The C code compares such pointers only to decide whether a piece's bytes
  end exactly at the tail of the most recent heap buffer; that comparison is
  translated as equality of buffer identifier plus offset arithmetic.
* `malloc`/`calloc` results are driven by an explicit allocation oracle, a
  list of booleans consumed one entry per allocation call; when the oracle
  is exhausted every further allocation succeeds, so `[]` means "all
  allocations succeed".
* Freeing an object removes it from its arena.  The C code can read through
  a pointer to a freed object (it keeps `Piece *` values across frees); such
  stale reads are modelled by capturing the piece value while it is still
  alive.  A write to a freed object is a no-op on the arena.  Following a
  null pointer, where the C code would fault, makes the modelled operation
  return failure.
* `time(NULL)` is an external input no claim depends on, so the `time`
  field of `Action` is omitted.  File loading takes the file's bytes as an
  argument instead of performing I/O.
* Byte counts are mathematical naturals; the `size_t` values involved are
  far below 2^64 in every state considered here and no subtraction in the
  modelled paths underflows.
-/

namespace PieceTable

/-- Bytes are represented as natural numbers. -/
abbrev Byte := Nat

/-- Association-list lookup for the arenas (first entry with the key wins,
matching what a memory read through a unique pointer does). -/
def alookup (k : Nat) : List (Nat × α) → Option α
  | [] => none
  | (k2, v) :: rest => if k2 = k then some v else alookup k rest

/-- Update every entry stored under key `k` (there is at most one). -/
def aupdate (k : Nat) (f : α → α) : List (Nat × α) → List (Nat × α)
  | [] => []
  | (k2, v) :: rest =>
    if k2 = k then (k2, f v) :: aupdate k f rest else (k2, v) :: aupdate k f rest

/-- Remove the entry stored under key `k`. -/
def aremove (k : Nat) : List (Nat × α) → List (Nat × α)
  | [] => []
  | (k2, v) :: rest => if k2 = k then aremove k rest else (k2, v) :: aremove k rest

/-- A pointer into buffer storage: buffer identifier plus byte offset.
`⟨0, 0⟩` plays the role of the null `char *`. -/
structure Ptr where
  bufId : Nat := 0
  off : Nat := 0
deriving Repr, DecidableEq

/-- struct Piece: logical neighbours `prev`/`next` (0 = null) and a view
`content`/`len` into a buffer.  The allocation-order list (`global_prev`,
`global_next`) is represented by arena membership itself; the back pointer
`editor` is implicit. -/
structure Piece where
  prev : Nat := 0
  next : Nat := 0
  content : Ptr := {}
  len : Nat := 0
deriving Repr, DecidableEq

/-- struct Buffer: capacity `size`, fill level `pos`, and the filled prefix
of its byte array as `data` (so `data.length = pos`). -/
structure Buffer where
  id : Nat := 0
  size : Nat := 0
  pos : Nat := 0
  data : List Byte := []
deriving Repr, DecidableEq

/-- struct Location, the result of `piece_get`. -/
structure Location where
  piece : Nat := 0
  off : Nat := 0
deriving Repr, DecidableEq

/-- struct Span: a piece range along the `next` chain with its cached total
length.  The C field `end` is called `stop` here (`end` is reserved). -/
structure Span where
  start : Nat := 0
  stop : Nat := 0
  len : Nat := 0
deriving Repr, DecidableEq

/-- struct Change: the two spans representing one edit. -/
structure Change where
  old : Span := {}
  new : Span := {}
deriving Repr, DecidableEq

/-- struct Action: the list of changes, most recent first (the C code links
Changes through their `next` field).  The timestamp is omitted. -/
structure Action where
  change : List Change := []
deriving Repr, DecidableEq

/-- struct Editor.  Both sentinels live in the `pieces` arena under the
reserved indices 1 (`begin`) and 2 (`end`). -/
structure Editor where
  buffers : List Buffer := []
  nextBufId : Nat := 2
  mmapBuf : Buffer := { id := 1 }
  pieces : List (Nat × Piece) := []
  piece_count : Nat := 0
  cache : Nat := 0
  undo : List Nat := []
  redo : List Nat := []
  actions : List (Nat × Action) := []
  action_count : Nat := 0
  current_action : Nat := 0
  saved_action : Nat := 0
  size : Nat := 0
deriving Repr, DecidableEq

/-- BUFFER_SIZE = 1 << 20. -/
def BUFFER_SIZE : Nat := 1048576

/-- Dereference a piece pointer (0 is the null pointer). -/
def lookupPiece (ed : Editor) (pid : Nat) : Option Piece :=
  if pid = 0 then none else alookup pid ed.pieces

/-- Write through a piece pointer; writing to a freed (absent) or null piece
is a no-op on the arena. -/
def setPiece (ed : Editor) (pid : Nat) (f : Piece → Piece) : Editor :=
  { ed with pieces := aupdate pid f ed.pieces }

/-- Dereference an action pointer (0 is the null pointer). -/
def lookupAction (ed : Editor) (aid : Nat) : Option Action :=
  if aid = 0 then none else alookup aid ed.actions

/-- Write through an action pointer. -/
def setAction (ed : Editor) (aid : Nat) (f : Action → Action) : Editor :=
  { ed with actions := aupdate aid f ed.actions }

/-- Find the buffer a content pointer refers to: identifier 1 is the mmap-ed
original, the rest are searched in the heap buffer list. -/
def lookupBuffer (ed : Editor) (bid : Nat) : Option Buffer :=
  if bid = 1 then some ed.mmapBuf else ed.buffers.find? (fun b => b.id = bid)

/-- Consume one entry of the allocation oracle; an exhausted oracle means
the allocation succeeds. -/
def takeAlloc : List Bool → Bool × List Bool
  | [] => (true, [])
  | b :: o => (b, o)

/-- buffer_capacity: check whether the buffer has room for `len` more bytes. -/
def buffer_capacity (buf : Buffer) (len : Nat) : Bool :=
  buf.size - buf.pos ≥ len

/-- buffer_append: append data at the tail, returning the pointer to where
the bytes were stored. -/
def buffer_append (buf : Buffer) (text : List Byte) : Ptr × Buffer :=
  (⟨buf.id, buf.pos⟩,
   { buf with pos := buf.pos + text.length, data := buf.data ++ text })

/-- buffer_alloc: allocate a fresh Buffer of capacity `max(size, BUFFER_SIZE)`
and link it at the head of the editor's buffer list.  Two allocations are
involved (the struct and its content array). -/
def buffer_alloc (ed : Editor) (size : Nat) (o : List Bool) :
    Option Editor × List Bool :=
  let (ok1, o) := takeAlloc o
  if !ok1 then (none, o) else
  let size := if BUFFER_SIZE > size then BUFFER_SIZE else size
  let (ok2, o) := takeAlloc o
  if !ok2 then (none, o) else
  let bid := ed.nextBufId
  (some { ed with
          nextBufId := bid + 1,
          buffers := { id := bid, size := size, pos := 0, data := [] } :: ed.buffers }, o)

/-- buffer_store: append the data to the head buffer, allocating a new one
if there is none or it lacks capacity; returns the storage pointer. -/
def buffer_store (ed : Editor) (text : List Byte) (o : List Bool) :
    Option (Editor × Ptr) × List Bool :=
  let need :=
    match ed.buffers with
    | [] => true
    | buf :: _ => !buffer_capacity buf text.length
  if need then
    match buffer_alloc ed text.length o with
    | (none, o) => (none, o)
    | (some ed, o) =>
      match ed.buffers with
      | [] => (none, o)
      | buf :: rest =>
        let (ptr, buf) := buffer_append buf text
        (some ({ ed with buffers := buf :: rest }, ptr), o)
  else
    match ed.buffers with
    | [] => (none, o)
    | buf :: rest =>
      let (ptr, buf) := buffer_append buf text
      (some ({ ed with buffers := buf :: rest }, ptr), o)

/-- buffer_insert: insert data at an arbitrary position of a buffer
(take/append/drop covers both the append case and the memmove case). -/
def buffer_insert (buf : Buffer) (pos : Nat) (text : List Byte) : Option Buffer :=
  if pos > buf.pos ∨ ¬ buffer_capacity buf text.length then none
  else some { buf with
              pos := buf.pos + text.length,
              data := buf.data.take pos ++ text ++ buf.data.drop pos }

/-- buffer_delete: delete `len` bytes at position `pos` of a buffer. -/
def buffer_delete (buf : Buffer) (pos len : Nat) : Option Buffer :=
  if pos + len > buf.pos then none
  else some { buf with
              pos := buf.pos - len,
              data := buf.data.take pos ++ buf.data.drop (pos + len) }

/-- piece_alloc: allocate a fresh piece with index `++piece_count` and put it
on the allocation list.  On allocation failure the returned index is 0 (the
C code yields a null pointer). -/
def piece_alloc (ed : Editor) (o : List Bool) : (Editor × Nat) × List Bool :=
  let (ok, o) := takeAlloc o
  if !ok then ((ed, 0), o) else
  let pid := ed.piece_count + 1
  (({ ed with piece_count := pid, pieces := (pid, ({} : Piece)) :: ed.pieces }, pid), o)

/-- piece_free: unlink the piece from the allocation list and drop the cache
if it referenced this piece. -/
def piece_free (ed : Editor) (pid : Nat) : Editor :=
  if pid = 0 then ed
  else
    let ed := { ed with pieces := aremove pid ed.pieces }
    if ed.cache = pid then { ed with cache := 0 } else ed

/-- piece_init: fill in the logical links and the content view of a piece. -/
def piece_init (ed : Editor) (pid prev next : Nat) (content : Ptr) (len : Nat) :
    Editor :=
  setPiece ed pid (fun _ =>
    { prev := prev, next := next, content := content, len := len })

/-- The loop of piece_get: walk from `pid` while the current piece has a
non-null `next`, returning the first piece whose closed range contains
`pos`.  Fuel bounds the walk (the C loop is bounded by the chain itself). -/
def piece_get_loop (ed : Editor) (pos cur pid : Nat) (fuel : Nat) : Location :=
  match fuel with
  | 0 => {}
  | fuel + 1 =>
    match lookupPiece ed pid with
    | none => {}
    | some p =>
      if p.next = 0 then {}
      else if cur ≤ pos ∧ pos ≤ cur + p.len then { piece := pid, off := pos - cur }
      else piece_get_loop ed pos (cur + p.len) p.next fuel

/-- piece_get: positional lookup starting at the begin sentinel (index 1). -/
def piece_get (ed : Editor) (pos : Nat) : Location :=
  piece_get_loop ed pos 0 1 (ed.pieces.length + 2)

/-- The loop of span_init: sum the lengths of the pieces from `pid` until
`stop` (inclusive) or a null pointer. -/
def span_init_loop (ed : Editor) (stop pid acc : Nat) (fuel : Nat) : Nat :=
  match fuel with
  | 0 => acc
  | fuel + 1 =>
    match lookupPiece ed pid with
    | none => acc
    | some p =>
      let acc := acc + p.len
      if pid = stop then acc
      else span_init_loop ed stop p.next acc fuel

/-- span_init: build a span and compute its cached length. -/
def span_init (ed : Editor) (start stop : Nat) : Span :=
  { start := start, stop := stop,
    len := span_init_loop ed stop start 0 (ed.pieces.length + 2) }

/-- span_swap: pure pointer surgery replacing the old span by the new one in
the piece graph, then the size adjustment `size -= old.len; size += new.len`.
Reads and writes are sequenced exactly as in the C statements; a write
through a pointer to a freed piece is a no-op. -/
def span_swap (ed : Editor) (old new : Span) : Editor :=
  if old.len = 0 ∧ new.len = 0 then ed
  else
    let ed :=
      if old.len = 0 then
        let ed :=
          match lookupPiece ed new.start with
          | some ns => setPiece ed ns.prev (fun q => { q with next := new.start })
          | none => ed
        match lookupPiece ed new.stop with
        | some ne => setPiece ed ne.next (fun q => { q with prev := new.stop })
        | none => ed
      else if new.len = 0 then
        match lookupPiece ed old.start with
        | none => ed
        | some os =>
          let ed :=
            match lookupPiece ed old.stop with
            | some oe => setPiece ed os.prev (fun q => { q with next := oe.next })
            | none => ed
          match lookupPiece ed old.stop with
          | some oe2 => setPiece ed oe2.next (fun q => { q with prev := os.prev })
          | none => ed
      else
        match lookupPiece ed old.start with
        | none => ed
        | some os =>
          let ed := setPiece ed os.prev (fun q => { q with next := new.start })
          match lookupPiece ed old.stop with
          | some oe2 => setPiece ed oe2.next (fun q => { q with prev := new.stop })
          | none => ed
    { ed with size := ed.size - old.len + new.len }

/-- cache_piece: record the piece as most recently modified iff its bytes
end exactly at the tail of the most recent heap buffer. -/
def cache_piece (ed : Editor) (pid : Nat) : Editor :=
  match ed.buffers, lookupPiece ed pid with
  | buf :: _, some p =>
    if p.content.bufId = buf.id ∧ p.content.off + p.len = buf.pos
    then { ed with cache := pid }
    else ed
  | _, _ => ed

/-- The search loop of cache_contains.  The C code computes both `start` and
`end` from `a->change->new.start`, so the bounds passed in reflect that. -/
def cache_loop (ed : Editor) (p stop cur : Nat) (found : Bool) (fuel : Nat) : Bool :=
  match fuel with
  | 0 => found
  | fuel + 1 =>
    if found then found
    else
      let found := found || (cur == p)
      if cur == stop then found
      else
        match lookupPiece ed cur with
        | none => found
        | some c => cache_loop ed p stop c.next found fuel

/-- cache_contains: whether the piece is the cached one, belongs to the most
recent change of the current action (as computed by the code: the search is
bounded by `new.start` on both sides) and its bytes end at the buffer tail. -/
def cache_contains (ed : Editor) (p : Nat) : Bool :=
  match ed.buffers with
  | [] => false
  | buf :: _ =>
    if ed.cache = 0 ∨ ed.cache ≠ p ∨ ed.current_action = 0 then false
    else
      match lookupAction ed ed.current_action with
      | none => false
      | some a =>
        match a.change with
        | [] => false
        | c :: _ =>
          let start := c.new.start
          let stop := c.new.start
          let found := cache_loop ed p stop start false (ed.pieces.length + 2)
          found &&
            (match lookupPiece ed p with
             | some v => v.content.bufId == buf.id && v.content.off + v.len == buf.pos
             | none => false)

/-- cache_insert: the insert fast path.  Grows the cached piece, the new
span of the most recent change and the editor size in place; `none` means
the fast path was not taken. -/
def cache_insert (ed : Editor) (p off : Nat) (text : List Byte) : Option Editor :=
  if ¬ cache_contains ed p then none else
  match ed.buffers, lookupPiece ed p with
  | buf :: rest, some v =>
    let bufpos := v.content.off + off
    match buffer_insert buf bufpos text with
    | none => none
    | some buf =>
      let ed := { ed with buffers := buf :: rest }
      let ed := setPiece ed p (fun q => { q with len := q.len + text.length })
      let ed := setAction ed ed.current_action (fun a =>
        match a.change with
        | [] => a
        | c :: cs =>
          { a with change :=
              { c with new := { c.new with len := c.new.len + text.length } } :: cs })
      some { ed with size := ed.size + text.length }
  | _, _ => none

/-- cache_delete: the delete fast path; the whole range must lie inside the
cached piece. -/
def cache_delete (ed : Editor) (p off len : Nat) : Option Editor :=
  if ¬ cache_contains ed p then none else
  match ed.buffers, lookupPiece ed p with
  | buf :: rest, some v =>
    let bufpos := v.content.off + off
    if off + len > v.len then none else
    match buffer_delete buf bufpos len with
    | none => none
    | some buf =>
      let ed := { ed with buffers := buf :: rest }
      let ed := setPiece ed p (fun q => { q with len := q.len - len })
      let ed := setAction ed ed.current_action (fun a =>
        match a.change with
        | [] => a
        | c :: cs =>
          { a with change :=
              { c with new := { c.new with len := c.new.len - len } } :: cs })
      some { ed with size := ed.size - len }
  | _, _ => none

/-- action_push. -/
def action_push (stack : List Nat) (aid : Nat) : List Nat :=
  aid :: stack

/-- change_free: free only the new-side endpoint pieces of the change (the
old side is still in use). -/
def change_free (ed : Editor) (c : Change) : Editor :=
  let ed := piece_free ed c.new.start
  if c.new.start ≠ c.new.stop then piece_free ed c.new.stop else ed

/-- action_free: free all changes of the action, then the action itself. -/
def action_free (ed : Editor) (aid : Nat) : Editor :=
  match lookupAction ed aid with
  | none => ed
  | some a =>
    let ed := a.change.foldl change_free ed
    { ed with actions := aremove aid ed.actions }

/-- The redo-draining loop of action_alloc: pop and free every action of the
given stack. -/
def drain_redo (ed : Editor) : List Nat → Editor
  | [] => ed
  | aid :: rest => drain_redo (action_free ed aid) rest

/-- action_alloc: allocate a fresh action, throw away all redo actions, make
it current and push it onto the undo stack. -/
def action_alloc (ed : Editor) (o : List Bool) : Option (Editor × Nat) × List Bool :=
  let (ok, o) := takeAlloc o
  if !ok then (none, o) else
  let aid := ed.action_count + 1
  let ed := { ed with action_count := aid, actions := (aid, ({} : Action)) :: ed.actions }
  let stack := ed.redo
  let ed := drain_redo { ed with redo := [] } stack
  (some ({ ed with current_action := aid, undo := action_push ed.undo aid }, aid), o)

/-- change_alloc: ensure a current action exists (allocating one drains the
redo stack) and prepend a fresh empty Change to it.  On failure the editor
is returned as mutated so far (the C code does not roll back). -/
def change_alloc (ed : Editor) (o : List Bool) : (Editor × Bool) × List Bool :=
  if ed.current_action = 0 then
    match action_alloc ed o with
    | (none, o) => ((ed, false), o)
    | (some (ed, aid), o) =>
      let (ok, o) := takeAlloc o
      if !ok then ((ed, false), o)
      else ((setAction ed aid (fun a => { a with change := ({} : Change) :: a.change }), true), o)
  else
    let aid := ed.current_action
    let (ok, o) := takeAlloc o
    if !ok then ((ed, false), o)
    else ((setAction ed aid (fun a => { a with change := ({} : Change) :: a.change }), true), o)

/-- Store the two spans into the most recent change of the current action
(the C code writes through the pointer returned by change_alloc). -/
def setChangeHead (ed : Editor) (old new : Span) : Editor :=
  setAction ed ed.current_action (fun a =>
    match a.change with
    | [] => a
    | _ :: cs => { a with change := ({ old := old, new := new } : Change) :: cs })

/-- editor_insert.  The piece value of the located piece is captured right
after the fast-path attempt: the C code keeps the `Piece *` and dereferences
it only later, so a piece freed in between (change_alloc may drain a redo
action whose pieces are still live) is read as stale memory still holding
the old field values.  A null located piece, on which the C code would
fault, fails instead. -/
def editor_insert (ed : Editor) (pos : Nat) (text : List Byte) (o : List Bool) :
    (Editor × Bool) × List Bool :=
  let len := text.length
  let loc := piece_get ed pos
  let p := loc.piece
  let off := loc.off
  match cache_insert ed p off text with
  | some ed => ((ed, true), o)
  | none =>
  match lookupPiece ed p with
  | none => ((ed, false), o)
  | some v =>
  match change_alloc ed o with
  | ((ed, false), o) => ((ed, false), o)
  | ((ed, true), o) =>
  match buffer_store ed text o with
  | (none, o) => ((ed, false), o)
  | (some (ed, ptr), o) =>
  if off = v.len then
    let ((ed, npid), o) := piece_alloc ed o
    if npid = 0 then ((ed, false), o)
    else
      let ed := piece_init ed npid p v.next ptr len
      let cnew := span_init ed npid npid
      let cold := span_init ed 0 0
      let ed := setChangeHead ed cold cnew
      let ed := cache_piece ed npid
      ((span_swap ed cold cnew, true), o)
  else
    let ((ed, bpid), o) := piece_alloc ed o
    let ((ed, npid), o) := piece_alloc ed o
    let ((ed, apid), o) := piece_alloc ed o
    if bpid = 0 ∨ npid = 0 ∨ apid = 0 then ((ed, false), o)
    else
      let ed := piece_init ed bpid v.prev npid v.content off
      let ed := piece_init ed npid bpid apid ptr len
      let ed := piece_init ed apid npid v.next ⟨v.content.bufId, v.content.off + off⟩ (v.len - off)
      let cnew := span_init ed bpid apid
      let cold := span_init ed p p
      let ed := setChangeHead ed cold cnew
      let ed := cache_piece ed npid
      ((span_swap ed cold cnew, true), o)

/-- editor_undo: pop the top undo action, swap every change back
(new → old) and push the action onto the redo stack.  Nothing else of the
editor is touched. -/
def editor_undo (ed : Editor) : Editor × Bool :=
  match ed.undo with
  | [] => (ed, false)
  | aid :: rest =>
    let ed := { ed with undo := rest }
    let ed :=
      match lookupAction ed aid with
      | none => ed
      | some a => a.change.foldl (fun ed (c : Change) => span_swap ed c.new c.old) ed
    ({ ed with redo := action_push ed.redo aid }, true)

/-- editor_redo: pop the top redo action, swap every change forward
(old → new) and push the action onto the undo stack. -/
def editor_redo (ed : Editor) : Editor × Bool :=
  match ed.redo with
  | [] => (ed, false)
  | aid :: rest =>
    let ed := { ed with redo := rest }
    let ed :=
      match lookupAction ed aid with
      | none => ed
      | some a => a.change.foldl (fun ed (c : Change) => span_swap ed c.old c.new) ed
    ({ ed with undo := action_push ed.undo aid }, true)

/-- The skip loop of editor_delete: advance `p = p->next; cur += p->len`
while `cur < len`; returns the final piece and `cur`.  Running off the list,
where the C code would fault, yields `none`. -/
def delete_skip (ed : Editor) (pid cur len : Nat) (fuel : Nat) : Option (Nat × Nat) :=
  match fuel with
  | 0 => none
  | fuel + 1 =>
    if cur < len then
      match lookupPiece ed pid with
      | none => none
      | some q =>
        match lookupPiece ed q.next with
        | none => none
        | some qn => delete_skip ed q.next (cur + qn.len) len fuel
    else some (pid, cur)

/-- editor_delete.  As in `editor_insert` the located piece value is
captured up front; piece allocation failures, on which the C code would
fault when initialising the piece, are modelled as failure. -/
def editor_delete (ed : Editor) (pos len : Nat) (o : List Bool) :
    (Editor × Bool) × List Bool :=
  if len = 0 then ((ed, true), o)
  else if pos + len > ed.size then ((ed, false), o)
  else
  let loc := piece_get ed pos
  let p := loc.piece
  let off := loc.off
  match cache_delete ed p off len with
  | some ed => ((ed, true), o)
  | none =>
  match lookupPiece ed p with
  | none => ((ed, false), o)
  | some v =>
  match change_alloc ed o with
  | ((ed, false), o) => ((ed, false), o)
  | ((ed, true), o) =>
    let (ed, o, midway_start, bpid, startId, cur) :=
      if off = v.len then (ed, o, false, p, v.next, 0)
      else
        let ((ed, bpid), o) := piece_alloc ed o
        (ed, o, true, bpid, p, v.len - off)
    if midway_start ∧ bpid = 0 then ((ed, false), o)
    else
      match delete_skip ed p cur len (ed.pieces.length + 2) with
      | none => ((ed, false), o)
      | some (pend, cur) =>
        match lookupPiece ed pend with
        | none => ((ed, false), o)
        | some vend =>
          let (ed, o, midway_end, afterId, afail) :=
            if cur = len then (ed, o, false, vend.next, false)
            else
              let ((ed, apid), o) := piece_alloc ed o
              if apid = 0 then (ed, o, true, 0, true)
              else
                let ed := piece_init ed apid bpid vend.next
                  ⟨vend.content.bufId, vend.content.off + vend.len - (cur - len)⟩ (cur - len)
                (ed, o, true, apid, false)
          if afail then ((ed, false), o)
          else
            let ed :=
              if midway_start then
                match lookupPiece ed startId with
                | some sv => piece_init ed bpid sv.prev afterId sv.content off
                | none => ed
              else ed
            let new_start := if midway_start then bpid else (if midway_end then afterId else 0)
            let new_stop := if midway_end then afterId else (if midway_start then bpid else 0)
            let cnew := span_init ed new_start new_stop
            let cold := span_init ed startId pend
            let ed := setChangeHead ed cold cnew
            ((span_swap ed cold cnew, true), o)

/-- editor_replace: delete then insert, ignoring both results. -/
def editor_replace (ed : Editor) (pos : Nat) (text : List Byte) (o : List Bool) :
    (Editor × Bool) × List Bool :=
  let ((ed, _), o) := editor_delete ed pos text.length o
  let ((ed, _), o) := editor_insert ed pos text o
  ((ed, true), o)

/-- editor_snapshot: close the current action and drop the cache. -/
def editor_snapshot (ed : Editor) : Editor :=
  { ed with current_action := 0, cache := 0 }

/-- editor_load: construct the initial editor.  `none` is an empty document;
`some data` stands for a successfully mmap-ed regular file holding `data`
(the I/O itself is out of scope).  Allocation is assumed to succeed. -/
def editor_load (file : Option (List Byte)) : Editor :=
  let ed : Editor := {}
  let ed := { ed with pieces := [(1, ({} : Piece)), (2, ({} : Piece))], piece_count := 2 }
  let ed := piece_init ed 1 0 2 {} 0
  let ed := piece_init ed 2 1 0 {} 0
  match file with
  | none => ed
  | some data =>
    let ed := { ed with mmapBuf := { id := 1, size := data.length, pos := 0, data := data } }
    let ((ed, pid), _) := piece_alloc ed []
    let ed := piece_init ed 1 0 pid {} 0
    let ed := piece_init ed pid 1 2 ⟨1, 0⟩ data.length
    let ed := piece_init ed 2 pid 0 {} 0
    { ed with size := data.length }

/-- The bytes a content view refers to. -/
def sliceBytes (ed : Editor) (ptr : Ptr) (len : Nat) : List Byte :=
  match lookupBuffer ed ptr.bufId with
  | none => []
  | some b => (b.data.drop ptr.off).take len

/-- The bytes of one piece. -/
def pieceBytes (ed : Editor) (p : Piece) : List Byte :=
  sliceBytes ed p.content p.len

/-- Collect the bytes of the chain starting at `pid` (the tail loop of
editor_iterate with a callback that keeps accepting). -/
def readFrom (ed : Editor) (pid fuel : Nat) : List Byte :=
  match fuel with
  | 0 => []
  | fuel + 1 =>
    match lookupPiece ed pid with
    | none => []
    | some p => pieceBytes ed p ++ readFrom ed p.next fuel

/-- editor_iterate with the copy_content callback: all document bytes from
position `pos` on. -/
def editor_iterate_bytes (ed : Editor) (pos : Nat) : List Byte :=
  let loc := piece_get ed pos
  match lookupPiece ed loc.piece with
  | none => []
  | some p =>
    sliceBytes ed ⟨p.content.bufId, p.content.off + loc.off⟩ (p.len - loc.off)
      ++ readFrom ed p.next (ed.pieces.length + 2)

/-- The whole document content as iterated from position 0. -/
def readContent (ed : Editor) : List Byte :=
  editor_iterate_bytes ed 0

/-- Sum of the piece lengths along the next chain starting at `pid`. -/
def chainLens (ed : Editor) (pid fuel : Nat) : Nat :=
  match fuel with
  | 0 => 0
  | fuel + 1 =>
    match lookupPiece ed pid with
    | none => 0
    | some p => p.len + chainLens ed p.next fuel

/-- Sum of the piece lengths over the begin-to-end chain (the sentinels both
have length 0, so including them changes nothing). -/
def chainSum (ed : Editor) : Nat :=
  chainLens ed 1 (ed.pieces.length + 2)

/-- The length a piece identifier denotes (0 for the null pointer). -/
def lenOf (ed : Editor) (pid : Nat) : Nat :=
  match lookupPiece ed pid with
  | none => 0
  | some p => p.len

/-- Pair every chain member with its length, for the specification-side
description of positional lookup. -/
def chainPairs (ed : Editor) (l : List Nat) : List (Nat × Nat) :=
  l.map (fun pid => (pid, lenOf ed pid))

/-- Total length of a piece/length list. -/
def sumLens (pls : List (Nat × Nat)) : Nat :=
  (pls.map (fun e => e.2)).sum

/-- Modelled from the spec: the first piece whose closed cumulative range
`[cur, cur + len]` contains `pos`, together with `pos - cur` as offset. -/
def spec_locate (pls : List (Nat × Nat)) (pos cur : Nat) : Option (Nat × Nat) :=
  match pls with
  | [] => none
  | (pid, len) :: rest =>
    if cur ≤ pos ∧ pos ≤ cur + len then some (pid, pos - cur)
    else spec_locate rest pos (cur + len)

/-- Check that `l` lists a next chain starting under predecessor `prev` and
ending at the end sentinel (index 2, whose `next` is null), with coherent
`prev`/`next` links and every member present in the arena. -/
def linksOK (ed : Editor) (prev : Nat) : List Nat → Bool
  | [] => false
  | pid :: rest =>
    match lookupPiece ed pid with
    | none => false
    | some v =>
      (v.prev = prev : Bool) &&
        (match rest with
         | [] => (pid = 2 : Bool) && (v.next = 0 : Bool)
         | nxt :: _ => (v.next = nxt : Bool) && linksOK ed pid rest)

/-- `l` is the begin-to-end piece chain of the editor: it starts at the
begin sentinel (index 1, with null `prev`), is linked coherently, ends at
the end sentinel, and is no longer than the arena (so the fuel used by the
walking loops covers it). -/
def isChain (ed : Editor) (l : List Nat) : Bool :=
  (match l with
   | pid :: _ => pid = 1
   | [] => false) &&
    linksOK ed 0 l && l.length ≤ ed.pieces.length

/-- Walk the next chain from `start` to `stop` (inclusive) looking for `p`. -/
def onSegment (ed : Editor) (start stop p : Nat) (fuel : Nat) : Bool :=
  match fuel with
  | 0 => false
  | fuel + 1 =>
    if start = 0 then false
    else if start = p then true
    else if start = stop then false
    else
      match lookupPiece ed start with
      | none => false
      | some v => onSegment ed v.next stop p fuel

/-- Modelled from the spec: the fast path is permitted when the located
piece is the cache, a current action with at least one Change exists, the
cached piece lies among the new-side pieces of the most recent Change
(anywhere on the next chain from `change.new.start` to `change.new.end`
inclusive), and the piece's bytes end at the tail buffer's current end. -/
def spec_fast_path_permit (ed : Editor) (p : Nat) : Bool :=
  match ed.buffers with
  | [] => false
  | buf :: _ =>
    (decide (ed.cache = p) && decide (p ≠ 0)) &&
      (match lookupAction ed ed.current_action with
       | none => false
       | some a =>
         match a.change with
         | [] => false
         | c :: _ => onSegment ed c.new.start c.new.stop p (ed.pieces.length + 2)) &&
      (match lookupPiece ed p with
       | some v => v.content.bufId == buf.id && v.content.off + v.len == buf.pos
       | none => false)

/-- The content view of a piece: the part of an arena entry that the
pointer surgery of span_swap never touches. -/
def pieceData (p : Piece) : Ptr × Nat :=
  (p.content, p.len)

/-- Agreement of two editors on every component except the piece-graph
links and the size: used to state the frame of span_swap. -/
def FrameOK (a b : Editor) : Prop :=
  a.buffers = b.buffers ∧ a.mmapBuf = b.mmapBuf ∧ a.nextBufId = b.nextBufId ∧
  a.actions = b.actions ∧ a.action_count = b.action_count ∧
  a.piece_count = b.piece_count ∧ a.cache = b.cache ∧
  a.undo = b.undo ∧ a.redo = b.redo ∧
  a.current_action = b.current_action ∧ a.saved_action = b.saved_action ∧
  ∀ pid, (lookupPiece a pid).map pieceData = (lookupPiece b pid).map pieceData

/-- Agreement of two editors on the components that freeing pieces,
changes and actions can never touch. -/
def CoreEq (a b : Editor) : Prop :=
  a.current_action = b.current_action ∧ a.piece_count = b.piece_count ∧
  a.buffers = b.buffers ∧ a.undo = b.undo ∧ a.redo = b.redo ∧
  a.action_count = b.action_count ∧ a.nextBufId = b.nextBufId ∧
  a.mmapBuf = b.mmapBuf ∧ a.size = b.size

/-- The empty-document editor, editor_load(NULL). -/
def st0 : Editor := editor_load none

/-- st0 after insert(0, "a"). -/
def stA : Editor := (editor_insert st0 0 [97] []).1.1

/-- stA after undo(); note that `current_action` still points at the undone
action, which now sits on the redo stack. -/
def stB : Editor := (editor_undo stA).1

/-- stB after insert(0, "b"): change_alloc finds the stale current action,
so the new change is appended to the action on the redo stack. -/
def stC : Editor := (editor_insert stB 0 [98] []).1.1

/-- stC after redo(): both changes of the popped action are applied again,
double-counting lengths. -/
def stD : Editor := (editor_redo stC).1

/-- stC after snapshot(): a snapshot boundary whose redo stack references
pieces that are spliced in the live document. -/
def stE : Editor := editor_snapshot stC

/-- stE after insert(1, "c"): change_alloc drains the redo stack, freeing
the piece that carries the document content (use-after-free in C). -/
def stF : Editor := (editor_insert stE 1 [99] []).1.1

/-- stF after snapshot(). -/
def stG : Editor := editor_snapshot stF

/-- stG after undo(). -/
def stH : Editor := (editor_undo stG).1

/-- stA after snapshot(). -/
def sA : Editor := editor_snapshot stA

/-- sA after undo(): a clean snapshot-boundary state with one redo action. -/
def sB : Editor := (editor_undo sA).1

/-- Editor loaded with the file "abcdef". -/
def c4base : Editor := editor_load (some [97, 98, 99, 100, 101, 102])

/-- c4base after the midway insert(3, "XY"): pieces Before = 4, N = 5,
After = 6 with the cache at N. -/
def c4ed : Editor := (editor_insert c4base 3 [88, 89] []).1.1

/-- st0 after insert(0, "ab"). -/
def c10ed : Editor := (editor_insert st0 0 [97, 98] []).1.1

/-- Editor loaded with the file "abc", used as a witness state. -/
def c7wit : Editor := editor_load (some [97, 98, 99])

/-- C1.  The claim that from every snapshot-boundary state a successful
edit followed by snapshot and undo restores the pre-edit bytes fails on
the code.  stE is a reachable snapshot-boundary state (reached by
insert(0,"a"); undo; insert(0,"b"); snapshot) whose content is "b"; the
redo stack still holds the undone action, whose recorded pieces are
spliced in the live document.  The successful edit insert(1,"c") makes
change_alloc drain that redo action and free those pieces (a
use-after-free in the C code), so after snapshot and a successful undo
the iterated content is empty, not "b". -/
theorem C1_undo_inverse_bug :
    readContent stE = [98] ∧
    (editor_insert stE 1 [99] []).1.2 = true ∧
    (editor_undo stG).2 = true ∧
    readContent stH = [] ∧
    readContent stH ≠ readContent stE := by
  decide

/-- C2.  The claim `size = Σ piece.length` over the live chain for every
reachable state fails on the code: after insert(0,"a"); undo;
insert(0,"b") (all successful), the redo stack still holds the first
action, which also received the second change; the successful redo then
applies both changes, counting both lengths into `size`, which ends at 3
while the chain sums to 1. -/
theorem C2_length_conservation_bug :
    (editor_insert st0 0 [97] []).1.2 = true ∧
    (editor_undo stA).2 = true ∧
    (editor_insert stB 0 [98] []).1.2 = true ∧
    (editor_redo stC).2 = true ∧
    stD.size = 3 ∧
    chainSum stD = 1 := by
  decide

/-- C3.  The claim that after a successful undo the next successful edit
leaves the redo stack empty and frees its former top fails on the code:
after insert(0,"a"); undo(), `current_action` still points at the undone
action, so the next insert reuses it, never drains the redo stack, and
the action survives (it even receives the new change). -/
theorem C3_redo_invalidation_bug :
    (editor_undo stA).2 = true ∧
    (editor_insert stB 0 [98] []).1.2 = true ∧
    stC.redo = [1] ∧
    alookup 1 stC.actions ≠ none := by
  decide

/-- C5.  The claim that a failed allocation leaves the editor unchanged
fails on the code: in the snapshot-boundary state sB (undo stack empty,
redo stack [1]), insert(0,"b") whose third allocation (the new piece)
fails still returns false, but has drained and freed the redo stack,
pushed a fresh action carrying an empty Change onto the undo stack and
grown the append buffer. -/
theorem C5_alloc_failure_not_atomic :
    (editor_insert sB 0 [98] [true, true, false]).1.2 = false ∧
    sB.undo = [] ∧
    (editor_insert sB 0 [98] [true, true, false]).1.1.undo = [2] ∧
    sB.redo = [1] ∧
    (editor_insert sB 0 [98] [true, true, false]).1.1.redo = [] ∧
    alookup 1 sB.actions ≠ none ∧
    alookup 1 (editor_insert sB 0 [98] [true, true, false]).1.1.actions = none := by
  decide

/-- C4, counterexample.  In c4ed (reached by loading "abcdef" and the
midway insert(3,"XY"), so the most recent change has the new span
[Before = 4, After = 6] and the cache is the middle piece N = 5), an
insert located at (N, 2) satisfies every condition the claim states for
the fast path, yet cache_contains rejects it and cache_insert declines:
the code bounds its search by `new.start` on both ends. -/
theorem C4_fast_path_counterexample :
    piece_get c4ed 5 = { piece := 5, off := 2 } ∧
    spec_fast_path_permit c4ed 5 = true ∧
    cache_contains c4ed 5 = false ∧
    cache_insert c4ed 5 2 [90] = none := by
  decide

/-- Lookup after an arena update: the updated key reads the updated value,
every other key is unaffected. -/
theorem alookup_aupdate (j k : Nat) (f : α → α) (l : List (Nat × α)) :
    alookup j (aupdate k f l) = if j = k then (alookup j l).map f else alookup j l := by
  induction l with
  | nil => simp [alookup, aupdate]
  | cons e rest ih =>
    obtain ⟨k2, v⟩ := e
    by_cases h1 : k2 = k
    · subst h1
      by_cases h2 : k2 = j
      · subst h2
        simp [alookup, aupdate]
      · simp [alookup, aupdate, h2, ih, show j ≠ k2 from fun h => h2 h.symm]
    · by_cases h2 : k2 = j
      · subst h2
        simp [alookup, aupdate, h1, show k2 ≠ k from h1, show ¬ k2 = k from h1]
      · simp [alookup, aupdate, h1, h2, ih]

/-- Lookup after an arena removal. -/
theorem alookup_aremove (j k : Nat) (l : List (Nat × α)) :
    alookup j (aremove k l) = if j = k then none else alookup j l := by
  induction l with
  | nil => simp [alookup, aremove]
  | cons e rest ih =>
    obtain ⟨k2, v⟩ := e
    by_cases h1 : k2 = k
    · subst h1
      by_cases h2 : k2 = j
      · subst h2
        simp [alookup, aremove, ih]
      · simp [alookup, aremove, h2, ih, show j ≠ k2 from fun h => h2 h.symm]
    · by_cases h2 : k2 = j
      · subst h2
        simp [alookup, aremove, h1, ih, show k2 ≠ k from h1]
      · simp [alookup, aremove, h1, h2, ih]

/-- Dereference after a piece write. -/
theorem lookupPiece_setPiece (ed : Editor) (k j : Nat) (f : Piece → Piece) :
    lookupPiece (setPiece ed k f) j =
      if j = k then (lookupPiece ed j).map f else lookupPiece ed j := by
  by_cases h0 : j = 0
  · subst h0
    simp [lookupPiece]
  · simp [lookupPiece, setPiece, h0, alookup_aupdate]

/-- Dereference after an action write. -/
theorem lookupAction_setAction (ed : Editor) (k j : Nat) (f : Action → Action) :
    lookupAction (setAction ed k f) j =
      if j = k then (lookupAction ed j).map f else lookupAction ed j := by
  by_cases h0 : j = 0
  · subst h0
    simp [lookupAction]
  · simp [lookupAction, setAction, h0, alookup_aupdate]

/-- A link-only piece write (setting `next`) does not change any piece's
content view. -/
theorem map_pieceData_set_next (ed : Editor) (k x j : Nat) :
    (lookupPiece (setPiece ed k (fun q => { q with next := x })) j).map pieceData
      = (lookupPiece ed j).map pieceData := by
  rw [lookupPiece_setPiece]
  split
  · rw [Option.map_map]
    rfl
  · rfl

/-- A link-only piece write (setting `prev`) does not change any piece's
content view. -/
theorem map_pieceData_set_prev (ed : Editor) (k x j : Nat) :
    (lookupPiece (setPiece ed k (fun q => { q with prev := x })) j).map pieceData
      = (lookupPiece ed j).map pieceData := by
  rw [lookupPiece_setPiece]
  split
  · rw [Option.map_map]
    rfl
  · rfl

/-- Dereferencing pieces ignores the size field. -/
theorem lookupPiece_set_size (ed : Editor) (s j : Nat) :
    lookupPiece { ed with size := s } j = lookupPiece ed j := rfl

/-- FrameOK is reflexive. -/
theorem FrameOK_refl (a : Editor) : FrameOK a a :=
  ⟨rfl, rfl, rfl, rfl, rfl, rfl, rfl, rfl, rfl, rfl, rfl, fun _ => rfl⟩

/-- FrameOK is transitive. -/
theorem FrameOK_trans {a b c : Editor} (h1 : FrameOK a b) (h2 : FrameOK b c) :
    FrameOK a c := by
  obtain ⟨a1, a2, a3, a4, a5, a6, a7, a8, a9, a10, a11, a12⟩ := h1
  obtain ⟨b1, b2, b3, b4, b5, b6, b7, b8, b9, b10, b11, b12⟩ := h2
  exact ⟨a1.trans b1, a2.trans b2, a3.trans b3, a4.trans b4, a5.trans b5,
    a6.trans b6, a7.trans b7, a8.trans b8, a9.trans b9, a10.trans b10,
    a11.trans b11, fun pid => (a12 pid).trans (b12 pid)⟩

/-- Writing a `next` link keeps the frame. -/
theorem FrameOK_set_next (ed : Editor) (k x : Nat) :
    FrameOK (setPiece ed k (fun q => { q with next := x })) ed :=
  ⟨rfl, rfl, rfl, rfl, rfl, rfl, rfl, rfl, rfl, rfl, rfl,
   fun j => map_pieceData_set_next ed k x j⟩

/-- Writing a `prev` link keeps the frame. -/
theorem FrameOK_set_prev (ed : Editor) (k x : Nat) :
    FrameOK (setPiece ed k (fun q => { q with prev := x })) ed :=
  ⟨rfl, rfl, rfl, rfl, rfl, rfl, rfl, rfl, rfl, rfl, rfl,
   fun j => map_pieceData_set_prev ed k x j⟩

/-- span_swap does not change any piece's content view. -/
theorem span_swap_map_pieceData (ed : Editor) (o n : Span) (pid : Nat) :
    (lookupPiece (span_swap ed o n) pid).map pieceData
      = (lookupPiece ed pid).map pieceData := by
  simp only [span_swap]
  split
  · rfl
  · repeat' split
    all_goals
      simp only [lookupPiece_set_size, map_pieceData_set_next, map_pieceData_set_prev]

/-- span_swap changes only the piece-graph links and the size. -/
theorem span_swap_FrameOK (ed : Editor) (o n : Span) :
    FrameOK (span_swap ed o n) ed := by
  refine ⟨?_, ?_, ?_, ?_, ?_, ?_, ?_, ?_, ?_, ?_, ?_, span_swap_map_pieceData ed o n⟩
  all_goals
    simp only [span_swap]
    split
    · rfl
    · repeat' split
      all_goals rfl

/-- Editors with equal action arenas dereference actions equally. -/
theorem lookupAction_ext {a b : Editor} (h : a.actions = b.actions) (j : Nat) :
    lookupAction a j = lookupAction b j := by
  simp [lookupAction, h]

/-- span_swap leaves the action arena alone. -/
theorem span_swap_actions (ed : Editor) (o n : Span) :
    (span_swap ed o n).actions = ed.actions :=
  (span_swap_FrameOK ed o n).2.2.2.1

/-- span_swap leaves the current action alone. -/
theorem span_swap_current (ed : Editor) (o n : Span) :
    (span_swap ed o n).current_action = ed.current_action :=
  (span_swap_FrameOK ed o n).2.2.2.2.2.2.2.2.2.1

/-- cache_piece touches only the cache field. -/
theorem cache_piece_fields (ed : Editor) (pid : Nat) :
    (cache_piece ed pid).buffers = ed.buffers ∧
    (cache_piece ed pid).pieces = ed.pieces ∧
    (cache_piece ed pid).piece_count = ed.piece_count ∧
    (cache_piece ed pid).actions = ed.actions ∧
    (cache_piece ed pid).current_action = ed.current_action ∧
    (cache_piece ed pid).undo = ed.undo ∧
    (cache_piece ed pid).redo = ed.redo ∧
    (cache_piece ed pid).size = ed.size ∧
    (cache_piece ed pid).mmapBuf = ed.mmapBuf := by
  simp only [cache_piece]
  repeat' split
  all_goals exact ⟨rfl, rfl, rfl, rfl, rfl, rfl, rfl, rfl, rfl⟩

/-- Dereference of actions after span_swap. -/
theorem lookupAction_span_swap (ed : Editor) (o n : Span) (j : Nat) :
    lookupAction (span_swap ed o n) j = lookupAction ed j :=
  lookupAction_ext (span_swap_actions ed o n) j

/-- Dereference of actions after cache_piece. -/
theorem lookupAction_cache_piece (ed : Editor) (pid j : Nat) :
    lookupAction (cache_piece ed pid) j = lookupAction ed j :=
  lookupAction_ext (cache_piece_fields ed pid).2.2.2.1 j

/-- Dereference of actions after a piece write. -/
theorem lookupAction_piece_init (ed : Editor) (pid a b : Nat) (c : Ptr) (l j : Nat) :
    lookupAction (piece_init ed pid a b c l) j = lookupAction ed j := rfl

/-- change_alloc with a current action appends one fresh empty change to
it (the oracle is exhausted, so the allocation succeeds). -/
theorem change_alloc_cur (X : Editor) (h : X.current_action ≠ 0) :
    change_alloc X [] =
      ((setAction X X.current_action
          (fun a => { a with change := ({} : Change) :: a.change }), true), []) := by
  rw [change_alloc, if_neg h]
  rfl

/-- buffer_alloc with an exhausted oracle always succeeds. -/
theorem buffer_alloc_nil_oracle (X : Editor) (size : Nat) :
    buffer_alloc X size [] =
      (some { X with
              nextBufId := X.nextBufId + 1,
              buffers := { id := X.nextBufId
                           size := if BUFFER_SIZE > size then BUFFER_SIZE else size
                           pos := 0
                           data := [] } :: X.buffers }, []) := rfl

/-- piece_alloc with an exhausted oracle always succeeds, returning the
fresh index piece_count + 1. -/
theorem piece_alloc_nil_oracle (X : Editor) :
    piece_alloc X [] =
      (({ X with
          piece_count := X.piece_count + 1,
          pieces := (X.piece_count + 1, ({} : Piece)) :: X.pieces },
        X.piece_count + 1), []) := rfl

/-- buffer_store with an exhausted oracle always succeeds and touches only
the buffer list and the fresh-identifier counter. -/
theorem buffer_store_spec (X : Editor) (text : List Byte) :
    ∃ Y ptr, buffer_store X text [] = (some (Y, ptr), []) ∧
      Y.pieces = X.pieces ∧ Y.piece_count = X.piece_count ∧
      Y.actions = X.actions ∧ Y.current_action = X.current_action ∧
      Y.cache = X.cache ∧ Y.undo = X.undo ∧ Y.redo = X.redo ∧
      Y.action_count = X.action_count ∧ Y.mmapBuf = X.mmapBuf ∧
      Y.size = X.size := by
  simp only [buffer_store]
  rcases hb : X.buffers with _ | ⟨buf, rest⟩
  · simp only [hb, buffer_alloc_nil_oracle, Bool.not_false, if_true, buffer_append]
    exact ⟨_, _, rfl, rfl, rfl, rfl, rfl, rfl, rfl, rfl, rfl, rfl, rfl⟩
  · by_cases hcap : buffer_capacity buf text.length
    · simp only [hb, hcap, Bool.not_true, Bool.false_eq_true, if_false, buffer_append]
      exact ⟨_, _, rfl, rfl, rfl, rfl, rfl, rfl, rfl, rfl, rfl, rfl, rfl⟩
    · rw [Bool.not_eq_true] at hcap
      simp only [hb, hcap, Bool.not_false, if_true, buffer_alloc_nil_oracle, buffer_append]
      exact ⟨_, _, rfl, rfl, rfl, rfl, rfl, rfl, rfl, rfl, rfl, rfl, rfl⟩

/-- cache_piece leaves the current action alone. -/
theorem cache_piece_current (ed : Editor) (pid : Nat) :
    (cache_piece ed pid).current_action = ed.current_action :=
  (cache_piece_fields ed pid).2.2.2.2.1

/-- setAction leaves the current-action pointer alone. -/
theorem setAction_current (ed : Editor) (k : Nat) (f : Action → Action) :
    (setAction ed k f).current_action = ed.current_action := rfl

/-- piece_init leaves the current action alone. -/
theorem piece_init_current (ed : Editor) (pid a b : Nat) (c : Ptr) (l : Nat) :
    (piece_init ed pid a b c l).current_action = ed.current_action := rfl

/-- Updating piece_count and the piece arena does not affect actions. -/
theorem lookupAction_set_pieces (X : Editor) (pc2 : Nat) (P : List (Nat × Piece)) (j : Nat) :
    lookupAction { X with piece_count := pc2, pieces := P } j = lookupAction X j := rfl

/-- piece_init does not affect the action arena. -/
theorem piece_init_actions (ed : Editor) (pid a b : Nat) (c : Ptr) (l : Nat) :
    (piece_init ed pid a b c l).actions = ed.actions := rfl

/-- Dereference of actions on a fully explicit editor literal. -/
theorem lookupAction_mk (bufs : List Buffer) (nb : Nat) (mm : Buffer)
    (P : List (Nat × Piece)) (pc ca : Nat) (u r : List Nat)
    (A : List (Nat × Action)) (acnt cur sa sz : Nat) (j : Nat) :
    lookupAction
      { buffers := bufs, nextBufId := nb, mmapBuf := mm, pieces := P,
        piece_count := pc, cache := ca, undo := u, redo := r, actions := A,
        action_count := acnt, current_action := cur, saved_action := sa,
        size := sz } j = if j = 0 then none else alookup j A := rfl

/-- Folding the undo direction of span_swap keeps the frame. -/
theorem foldl_undo_FrameOK (l : List Change) (ed : Editor) :
    FrameOK (l.foldl (fun e (c : Change) => span_swap e c.new c.old) ed) ed := by
  induction l generalizing ed with
  | nil => exact FrameOK_refl ed
  | cons c cs ih =>
    simp only [List.foldl_cons]
    exact FrameOK_trans (ih _) (span_swap_FrameOK ed c.new c.old)

/-- Folding the redo direction of span_swap keeps the frame. -/
theorem foldl_redo_FrameOK (l : List Change) (ed : Editor) :
    FrameOK (l.foldl (fun e (c : Change) => span_swap e c.old c.new) ed) ed := by
  induction l generalizing ed with
  | nil => exact FrameOK_refl ed
  | cons c cs ih =>
    simp only [List.foldl_cons]
    exact FrameOK_trans (ih _) (span_swap_FrameOK ed c.old c.new)

/-- editor_undo changes only the piece-graph links, the size and the two
stacks: every other component, and every piece's content view, is kept. -/
theorem editor_undo_frame (ed : Editor) :
    (editor_undo ed).1.current_action = ed.current_action ∧
    (editor_undo ed).1.cache = ed.cache ∧
    (editor_undo ed).1.saved_action = ed.saved_action ∧
    (editor_undo ed).1.buffers = ed.buffers ∧
    (editor_undo ed).1.mmapBuf = ed.mmapBuf ∧
    (editor_undo ed).1.actions = ed.actions ∧
    (editor_undo ed).1.piece_count = ed.piece_count ∧
    (editor_undo ed).1.action_count = ed.action_count ∧
    ∀ pid, (lookupPiece (editor_undo ed).1 pid).map pieceData
             = (lookupPiece ed pid).map pieceData := by
  rcases hu : ed.undo with _ | ⟨aid, rest⟩
  · simp [editor_undo, hu]
  simp only [editor_undo, hu]
  rcases ha : lookupAction { ed with undo := rest } aid with _ | a
  · exact ⟨rfl, rfl, rfl, rfl, rfl, rfl, rfl, rfl, fun _ => rfl⟩
  · obtain ⟨f1, f2, f3, f4, f5, f6, f7, f8, f9, f10, f11, f12⟩ :=
      foldl_undo_FrameOK a.change { ed with undo := rest }
    exact ⟨f10, f7, f11, f1, f2, f4, f6, f5, fun pid => f12 pid⟩

/-- editor_redo changes only the piece-graph links, the size and the two
stacks: every other component, and every piece's content view, is kept. -/
theorem editor_redo_frame (ed : Editor) :
    (editor_redo ed).1.current_action = ed.current_action ∧
    (editor_redo ed).1.cache = ed.cache ∧
    (editor_redo ed).1.saved_action = ed.saved_action ∧
    (editor_redo ed).1.buffers = ed.buffers ∧
    (editor_redo ed).1.mmapBuf = ed.mmapBuf ∧
    (editor_redo ed).1.actions = ed.actions ∧
    (editor_redo ed).1.piece_count = ed.piece_count ∧
    (editor_redo ed).1.action_count = ed.action_count ∧
    ∀ pid, (lookupPiece (editor_redo ed).1 pid).map pieceData
             = (lookupPiece ed pid).map pieceData := by
  rcases hu : ed.redo with _ | ⟨aid, rest⟩
  · simp [editor_redo, hu]
  simp only [editor_redo, hu]
  rcases ha : lookupAction { ed with redo := rest } aid with _ | a
  · exact ⟨rfl, rfl, rfl, rfl, rfl, rfl, rfl, rfl, fun _ => rfl⟩
  · obtain ⟨f1, f2, f3, f4, f5, f6, f7, f8, f9, f10, f11, f12⟩ :=
      foldl_redo_FrameOK a.change { ed with redo := rest }
    exact ⟨f10, f7, f11, f1, f2, f4, f6, f5, fun pid => f12 pid⟩

/-- A successful slow-path editor_insert in a state with an open current
action keeps that action current and prepends exactly one change to it. -/
theorem insert_appends_change (E : Editor) (pos : Nat) (text : List Byte)
    (a : Action) (p off : Nat) (v : Piece)
    (hc : E.current_action ≠ 0)
    (ha : lookupAction E E.current_action = some a)
    (hloc : piece_get E pos = ⟨p, off⟩)
    (hfast : cache_insert E p off text = none)
    (hv : lookupPiece E p = some v) :
    (editor_insert E pos text []).1.2 = true ∧
    (editor_insert E pos text []).1.1.current_action = E.current_action ∧
    ∃ c, lookupAction (editor_insert E pos text []).1.1 E.current_action
           = some { change := c :: a.change } := by
  have hlp : (piece_get E pos).piece = p := by rw [hloc]
  have hlo : (piece_get E pos).off = off := by rw [hloc]
  obtain ⟨Y, ptr, hbs, hYpieces, hYpc, hYactions, hYcur, hYcache, hYundo, hYredo,
    hYacnt, hYmm, hYsize⟩ :=
    buffer_store_spec
      (setAction E E.current_action
        (fun a => { a with change := ({} : Change) :: a.change })) text
  simp only [editor_insert, hlp, hlo, hfast, hv, change_alloc_cur E hc, hbs,
    piece_alloc_nil_oracle, Nat.add_one_ne_zero, if_false, or_self, or_false, false_or,
    if_true, not_false_eq_true]
  split
  all_goals refine ⟨rfl, ?_, ?_⟩
  · simp only [span_swap_current, cache_piece_current, setChangeHead, setAction_current,
      piece_init_current, hYcur]
  · have ha2 : alookup E.current_action E.actions = some a := by
      rw [lookupAction, if_neg hc] at ha
      exact ha
    simp only [lookupAction_span_swap, lookupAction_cache_piece, setChangeHead, setAction,
      lookupAction_mk, piece_init_current, piece_init_actions, setAction_current, hYcur,
      hYactions, lookupAction_piece_init, alookup_aupdate, eq_self_iff_true, if_true,
      hc, if_false, ha2, Option.map_some]
    exact ⟨_, rfl⟩
  · simp only [span_swap_current, cache_piece_current, setChangeHead, setAction_current,
      piece_init_current, hYcur]
  · have ha2 : alookup E.current_action E.actions = some a := by
      rw [lookupAction, if_neg hc] at ha
      exact ha
    simp only [lookupAction_span_swap, lookupAction_cache_piece, setChangeHead, setAction,
      lookupAction_mk, piece_init_current, piece_init_actions, setAction_current, hYcur,
      hYactions, lookupAction_piece_init, alookup_aupdate, eq_self_iff_true, if_true,
      hc, if_false, ha2, Option.map_some]
    exact ⟨_, rfl⟩

/-- The search loop of cache_contains immediately terminates because the
code sets both bounds to `new.start`: it finds exactly the start piece. -/
theorem cache_loop_self (ed : Editor) (p s n : Nat) :
    cache_loop ed p s s false (n + 1) = (s == p) := by
  rw [cache_loop]
  simp

/-- C4, amended: the insert fast path is permitted exactly when the located
piece is the cache, a current action with at least one Change exists, the
cached piece is the first piece (`new.start`) of that change's new-side
span, and the piece's bytes end at the tail buffer's current end; pieces
deeper in the new span do not qualify. -/
theorem C4_fast_path_amended (ed : Editor) (p : Nat) :
    cache_contains ed p = true ↔
      ∃ buf rest a c cs v,
        ed.buffers = buf :: rest ∧
        ed.cache = p ∧ p ≠ 0 ∧ ed.current_action ≠ 0 ∧
        lookupAction ed ed.current_action = some a ∧
        a.change = c :: cs ∧
        c.new.start = p ∧
        lookupPiece ed p = some v ∧
        v.content.bufId = buf.id ∧
        v.content.off + v.len = buf.pos := by
  rcases hb : ed.buffers with _ | ⟨buf, rest⟩
  · simp [cache_contains, hb]
  simp only [cache_contains, hb]
  by_cases hc : ed.cache = 0 ∨ ed.cache ≠ p ∨ ed.current_action = 0
  · rw [if_pos hc]
    simp only [Bool.false_eq_true, false_iff]
    rintro ⟨buf', rest', a, c, cs, v, hb', hcache, hp0, hcur, -⟩
    rcases hc with h | h | h
    · exact hp0 (hcache ▸ h)
    · exact h hcache
    · exact hcur h
  rw [if_neg hc]
  push_neg at hc
  obtain ⟨hc0, hcp, hcur⟩ := hc
  rcases ha : lookupAction ed ed.current_action with _ | a
  · simp
  rcases hch : a.change with _ | ⟨c, cs⟩
  · simp [hch]
  simp only [hch]
  have hfuel : ed.pieces.length + 2 = ed.pieces.length + 1 + 1 := rfl
  rw [hfuel, cache_loop_self]
  rcases hv : lookupPiece ed p with _ | v
  · simp
  simp only [hv]
  constructor
  · intro h
    rw [Bool.and_eq_true, Bool.and_eq_true] at h
    obtain ⟨hs, h1, h2⟩ := h
    refine ⟨buf, rest, a, c, cs, v, rfl, hcp, ?_, hcur, rfl, hch, ?_, rfl, ?_, ?_⟩
    · exact fun h0 => hc0 (hcp.trans h0)
    · simpa using hs
    · simpa using h1
    · simpa using h2
  · rintro ⟨buf', rest', a', c', cs', v', hb', hcache, hp0, hcur', ha', hch', hstart, hv', hbid, hpos⟩
    obtain ⟨rfl, rfl⟩ := List.cons.inj hb'
    obtain rfl := Option.some.inj ha'
    rw [hch] at hch'
    obtain ⟨rfl, rfl⟩ := List.cons.inj hch'
    obtain rfl := Option.some.inj hv'
    simp [hstart, hbid, hpos]

/-- C8, counterexample.  The claim states that delete(pos, len) with
pos + len > size fails and that delete(pos, 0) succeeds; at pos > size
with len = 0 both apply and the code follows the len = 0 rule, returning
success, so the out-of-range part as stated is false. -/
theorem C8_out_of_range_counterexample :
    1 + 0 > st0.size ∧ editor_delete st0 1 0 [] = ((st0, true), []) := by
  decide

/-- C8, amended: delete(pos, 0) always succeeds without change, and
delete(pos, len) with len positive and pos + len > size fails without
change. -/
theorem C8_delete_guards (ed : Editor) (pos len : Nat) (o : List Bool) :
    editor_delete ed pos 0 o = ((ed, true), o) ∧
    (0 < len → pos + len > ed.size → editor_delete ed pos len o = ((ed, false), o)) := by
  constructor
  · rw [editor_delete]
    simp
  · intro hl hr
    rw [editor_delete]
    simp [hl.ne', hr]

/-- Witness for C8_delete_guards at a concrete state. -/
theorem C8_delete_guards_witness :
    0 < 1 ∧ 1 + 1 > st0.size ∧ editor_delete st0 1 1 [] = ((st0, false), []) :=
  ⟨by decide, by decide, (C8_delete_guards st0 1 1 []).2 (by decide) (by decide)⟩

/-- Editors with equal piece arenas dereference pieces equally. -/
theorem lookupPiece_ext {a b : Editor} (h : a.pieces = b.pieces) (j : Nat) :
    lookupPiece a j = lookupPiece b j := by
  simp [lookupPiece, h]

/-- A successful arena lookup pinpoints an entry of the list. -/
theorem alookup_mem (j : Nat) (v : α) : ∀ l : List (Nat × α),
    alookup j l = some v → (j, v) ∈ l := by
  intro l
  induction l with
  | nil =>
    intro h
    exact absurd h (by simp [alookup])
  | cons e rest ih =>
    obtain ⟨k2, w⟩ := e
    intro h
    rw [alookup] at h
    by_cases hk : k2 = j
    · rw [if_pos hk] at h
      obtain rfl := Option.some.inj h
      subst hk
      exact List.mem_cons_self _ _
    · rw [if_neg hk] at h
      exact List.mem_cons_of_mem _ (ih h)

/-- CoreEq is reflexive. -/
theorem CoreEq_refl (a : Editor) : CoreEq a a :=
  ⟨rfl, rfl, rfl, rfl, rfl, rfl, rfl, rfl, rfl⟩

/-- CoreEq is transitive. -/
theorem CoreEq_trans {a b c : Editor} (h1 : CoreEq a b) (h2 : CoreEq b c) : CoreEq a c := by
  obtain ⟨a1, a2, a3, a4, a5, a6, a7, a8, a9⟩ := h1
  obtain ⟨b1, b2, b3, b4, b5, b6, b7, b8, b9⟩ := h2
  exact ⟨a1.trans b1, a2.trans b2, a3.trans b3, a4.trans b4, a5.trans b5,
    a6.trans b6, a7.trans b7, a8.trans b8, a9.trans b9⟩

/-- The piece arena after piece_free of a real piece. -/
theorem piece_free_pieces (X : Editor) (k : Nat) (hk : k ≠ 0) :
    (piece_free X k).pieces = aremove k X.pieces := by
  simp only [piece_free, if_neg hk]
  split <;> rfl

/-- Dereference after piece_free: only the freed piece disappears. -/
theorem piece_free_lookup (X : Editor) (k j : Nat) :
    lookupPiece (piece_free X k) j = if j = k then none else lookupPiece X j := by
  by_cases hj : j = 0
  · subst hj
    have h1 : lookupPiece (piece_free X k) 0 = none := by
      rw [lookupPiece, if_pos rfl]
    have h2 : lookupPiece X 0 = none := by
      rw [lookupPiece, if_pos rfl]
    rw [h1, h2]
    split <;> rfl
  · by_cases hk : k = 0
    · rw [show piece_free X k = X from by rw [piece_free, if_pos hk]]
      rw [if_neg (by omega : ¬ j = k)]
    · simp [lookupPiece, hj, piece_free_pieces X k hk, alookup_aremove]

/-- piece_free preserves the core components. -/
theorem piece_free_core (X : Editor) (k : Nat) : CoreEq (piece_free X k) X := by
  by_cases hk : k = 0
  · simp only [piece_free, if_pos hk]
    exact CoreEq_refl X
  · simp only [piece_free, if_neg hk]
    split
    · exact ⟨rfl, rfl, rfl, rfl, rfl, rfl, rfl, rfl, rfl⟩
    · exact ⟨rfl, rfl, rfl, rfl, rfl, rfl, rfl, rfl, rfl⟩

/-- piece_free does not touch the action arena. -/
theorem piece_free_actions (X : Editor) (k : Nat) :
    (piece_free X k).actions = X.actions := by
  by_cases hk : k = 0
  · simp only [piece_free, if_pos hk]
  · simp only [piece_free, if_neg hk]
    split <;> rfl

/-- Dereference after change_free, away from the freed span endpoints. -/
theorem change_free_lookup (X : Editor) (c : Change) (j : Nat)
    (h1 : c.new.start ≠ j) (h2 : c.new.stop ≠ j) :
    lookupPiece (change_free X c) j = lookupPiece X j := by
  rw [change_free]
  split
  · rw [piece_free_lookup, piece_free_lookup, if_neg (fun h => h2 h.symm),
      if_neg (fun h => h1 h.symm)]
  · rw [piece_free_lookup, if_neg (fun h => h1 h.symm)]

/-- change_free preserves the core components. -/
theorem change_free_core (X : Editor) (c : Change) : CoreEq (change_free X c) X := by
  rw [change_free]
  split
  · exact CoreEq_trans (piece_free_core _ _) (piece_free_core _ _)
  · exact piece_free_core _ _

/-- change_free does not touch the action arena. -/
theorem change_free_actions (X : Editor) (c : Change) :
    (change_free X c).actions = X.actions := by
  rw [change_free]
  split
  · rw [piece_free_actions, piece_free_actions]
  · rw [piece_free_actions]

/-- Folding change_free preserves the core components. -/
theorem foldl_change_free_core : ∀ (l : List Change) (X : Editor),
    CoreEq (l.foldl change_free X) X := by
  intro l
  induction l with
  | nil => intro X; exact CoreEq_refl X
  | cons c cs ih =>
    intro X
    rw [List.foldl_cons]
    exact CoreEq_trans (ih _) (change_free_core X c)

/-- Folding change_free does not touch the action arena. -/
theorem foldl_change_free_actions : ∀ (l : List Change) (X : Editor),
    (l.foldl change_free X).actions = X.actions := by
  intro l
  induction l with
  | nil => intro X; rfl
  | cons c cs ih =>
    intro X
    rw [List.foldl_cons, ih, change_free_actions]

/-- Folding change_free leaves pieces alone away from all the freed span
endpoints. -/
theorem foldl_change_free_lookup (j : Nat) : ∀ (l : List Change) (X : Editor),
    (∀ c ∈ l, c.new.start ≠ j ∧ c.new.stop ≠ j) →
    lookupPiece (l.foldl change_free X) j = lookupPiece X j := by
  intro l
  induction l with
  | nil => intro X h; rfl
  | cons c cs ih =>
    intro X h
    rw [List.foldl_cons, ih _ (fun c2 hm => h c2 (List.mem_cons_of_mem _ hm)),
      change_free_lookup X c j (h c (List.mem_cons_self _ _)).1
        (h c (List.mem_cons_self _ _)).2]

/-- Dereference of actions after action_free: only the freed action
disappears. -/
theorem action_free_lookupA (X : Editor) (aid j : Nat) :
    lookupAction (action_free X aid) j = if j = aid then none else lookupAction X j := by
  rw [action_free]
  rcases ha : lookupAction X aid with _ | a
  · by_cases hj : j = aid
    · rw [if_pos hj, hj, ha]
    · rw [if_neg hj]
  · by_cases hj : j = 0
    · subst hj
      have h0 : aid ≠ 0 := by
        intro h0
        rw [h0, lookupAction, if_pos rfl] at ha
        exact Option.noConfusion ha
      rw [if_neg (by omega : ¬ (0 : Nat) = aid)]
      rw [lookupAction, if_pos rfl, lookupAction, if_pos rfl]
    · show lookupAction { (a.change.foldl change_free X) with
          actions := aremove aid (a.change.foldl change_free X).actions } j = _
      rw [lookupAction, if_neg hj]
      show alookup j (aremove aid (a.change.foldl change_free X).actions) = _
      rw [alookup_aremove, foldl_change_free_actions, lookupAction, if_neg hj]

/-- Dereference of pieces after action_free, away from the freed action's
new-span endpoints. -/
theorem action_free_lookupP (X : Editor) (aid j : Nat)
    (h : ∀ a, lookupAction X aid = some a →
        ∀ c ∈ a.change, c.new.start ≠ j ∧ c.new.stop ≠ j) :
    lookupPiece (action_free X aid) j = lookupPiece X j := by
  rw [action_free]
  rcases ha : lookupAction X aid with _ | a
  · rfl
  · show lookupPiece { (a.change.foldl change_free X) with
        actions := aremove aid (a.change.foldl change_free X).actions } j = _
    rw [show lookupPiece { (a.change.foldl change_free X) with
        actions := aremove aid (a.change.foldl change_free X).actions } j
        = lookupPiece (a.change.foldl change_free X) j from rfl]
    exact foldl_change_free_lookup j a.change X (h a ha)

/-- action_free preserves the core components. -/
theorem action_free_core (X : Editor) (aid : Nat) : CoreEq (action_free X aid) X := by
  rw [action_free]
  rcases ha : lookupAction X aid with _ | a
  · exact CoreEq_refl X
  · obtain ⟨c1, c2, c3, c4, c5, c6, c7, c8, c9⟩ := foldl_change_free_core a.change X
    exact ⟨c1, c2, c3, c4, c5, c6, c7, c8, c9⟩

/-- Draining a redo stack frees exactly the drained actions and their
new-span endpoint pieces, leaving everything else in place. -/
theorem drain_redo_spec (p0 : Nat) : ∀ (stack : List Nat) (X : Editor),
    (∀ aid ∈ stack, ∀ a, lookupAction X aid = some a →
        ∀ c ∈ a.change, c.new.start ≠ p0 ∧ c.new.stop ≠ p0) →
    lookupPiece (drain_redo X stack) p0 = lookupPiece X p0 ∧
    (∀ j, j ∉ stack → lookupAction (drain_redo X stack) j = lookupAction X j) ∧
    CoreEq (drain_redo X stack) X := by
  intro stack
  induction stack with
  | nil =>
    intro X h
    exact ⟨rfl, fun j hj => rfl, CoreEq_refl X⟩
  | cons aid rest ih =>
    intro X h
    rw [drain_redo]
    have hx : ∀ aid2 ∈ rest, ∀ a, lookupAction (action_free X aid) aid2 = some a →
        ∀ c ∈ a.change, c.new.start ≠ p0 ∧ c.new.stop ≠ p0 := by
      intro aid2 hmem a hla
      rw [action_free_lookupA] at hla
      by_cases haa : aid2 = aid
      · rw [if_pos haa] at hla
        exact absurd hla (by simp)
      · rw [if_neg haa] at hla
        exact h aid2 (List.mem_cons_of_mem _ hmem) a hla
    obtain ⟨hp, hA, hC⟩ := ih (action_free X aid) hx
    refine ⟨?_, ?_, CoreEq_trans hC (action_free_core X aid)⟩
    · rw [hp, action_free_lookupP X aid p0 (h aid (List.mem_cons_self _ _))]
    · intro j hj
      rw [hA j (fun hm => hj (List.mem_cons_of_mem _ hm)), action_free_lookupA,
        if_neg (fun he => hj (by rw [he]; exact List.mem_cons_self _ _))]

/-- setAction leaves the piece arena alone. -/
theorem lookupPiece_setAction (ed : Editor) (k : Nat) (f : Action → Action) (j : Nat) :
    lookupPiece (setAction ed k f) j = lookupPiece ed j := rfl

/-- action_alloc with an exhausted oracle: a fresh action becomes current
and is pushed, the redo stack is drained and freed, and nothing else
changes (given that the stack cannot free the fresh action or the
protected piece). -/
theorem action_alloc_spec (ed : Editor) (p0 : Nat)
    (hbound : ∀ aid ∈ ed.redo, aid ≤ ed.action_count)
    (hsafe : ∀ aid ∈ ed.redo, ∀ a, lookupAction ed aid = some a →
        ∀ c ∈ a.change, c.new.start ≠ p0 ∧ c.new.stop ≠ p0) :
    ∃ D, action_alloc ed [] = (some (D, ed.action_count + 1), []) ∧
      lookupPiece D p0 = lookupPiece ed p0 ∧
      D.piece_count = ed.piece_count ∧
      D.buffers = ed.buffers ∧
      D.nextBufId = ed.nextBufId ∧
      D.mmapBuf = ed.mmapBuf ∧
      D.current_action = ed.action_count + 1 ∧
      lookupAction D (ed.action_count + 1) = some ({} : Action) := by
  have haid : ed.action_count + 1 ≠ 0 := Nat.succ_ne_zero _
  have heq : action_alloc ed [] =
      (some ({ drain_redo
          { ed with
            action_count := ed.action_count + 1,
            actions := (ed.action_count + 1, ({} : Action)) :: ed.actions,
            redo := [] } ed.redo with
          current_action := ed.action_count + 1,
          undo := action_push (drain_redo
            { ed with
              action_count := ed.action_count + 1,
              actions := (ed.action_count + 1, ({} : Action)) :: ed.actions,
              redo := [] } ed.redo).undo (ed.action_count + 1) },
        ed.action_count + 1), []) := rfl
  have htrans : ∀ aid2 ∈ ed.redo, ∀ a,
      lookupAction { ed with
        action_count := ed.action_count + 1,
        actions := (ed.action_count + 1, ({} : Action)) :: ed.actions,
        redo := [] } aid2 = some a →
      ∀ c ∈ a.change, c.new.start ≠ p0 ∧ c.new.stop ≠ p0 := by
    intro aid2 hm a hla
    by_cases h02 : aid2 = 0
    · rw [lookupAction, if_pos h02] at hla
      exact absurd hla (by simp)
    · rw [lookupAction, if_neg h02] at hla
      have hred : ({ ed with
          action_count := ed.action_count + 1,
          actions := (ed.action_count + 1, ({} : Action)) :: ed.actions,
          redo := [] } : Editor).actions
          = (ed.action_count + 1, ({} : Action)) :: ed.actions := rfl
      rw [hred, alookup, if_neg (by have := hbound aid2 hm; omega)] at hla
      refine hsafe aid2 hm a ?_
      rw [lookupAction, if_neg h02]
      exact hla
  obtain ⟨hp, hA, hC⟩ := drain_redo_spec p0 ed.redo _ htrans
  obtain ⟨c1, c2, c3, c4, c5, c6, c7, c8, c9⟩ := hC
  refine ⟨_, heq, ?_, ?_, ?_, ?_, ?_, rfl, ?_⟩
  · show lookupPiece (drain_redo { ed with
        action_count := ed.action_count + 1,
        actions := (ed.action_count + 1, ({} : Action)) :: ed.actions,
        redo := [] } ed.redo) p0 = lookupPiece ed p0
    rw [hp]
    exact lookupPiece_ext rfl p0
  · exact c2
  · exact c3
  · exact c7
  · exact c8
  · have hnm : ed.action_count + 1 ∉ ed.redo := by
      intro hm
      have := hbound _ hm
      omega
    have h1 := hA (ed.action_count + 1) hnm
    show lookupAction (drain_redo { ed with
        action_count := ed.action_count + 1,
        actions := (ed.action_count + 1, ({} : Action)) :: ed.actions,
        redo := [] } ed.redo) (ed.action_count + 1) = some {}
    rw [h1, lookupAction, if_neg haid]
    show alookup (ed.action_count + 1)
      ((ed.action_count + 1, ({} : Action)) :: ed.actions) = some {}
    rw [alookup, if_pos rfl]

/-- change_alloc with an exhausted oracle succeeds; the resulting editor
has a current action holding a fresh empty change at its head, while the
protected piece, the piece counter and the buffers are untouched. -/
theorem change_alloc_spec (ed : Editor) (p0 : Nat)
    (hcur : ed.current_action ≠ 0 → ∃ a0, lookupAction ed ed.current_action = some a0)
    (hdrain : ed.current_action = 0 →
      (∀ aid ∈ ed.redo, aid ≤ ed.action_count) ∧
      (∀ aid ∈ ed.redo, ∀ a, lookupAction ed aid = some a →
          ∀ c ∈ a.change, c.new.start ≠ p0 ∧ c.new.stop ≠ p0)) :
    ∃ X1 cs, change_alloc ed [] = ((X1, true), []) ∧
      lookupPiece X1 p0 = lookupPiece ed p0 ∧
      X1.piece_count = ed.piece_count ∧
      X1.buffers = ed.buffers ∧
      X1.nextBufId = ed.nextBufId ∧
      X1.mmapBuf = ed.mmapBuf ∧
      X1.current_action ≠ 0 ∧
      lookupAction X1 X1.current_action = some ⟨({} : Change) :: cs⟩ := by
  by_cases hc0 : ed.current_action = 0
  · obtain ⟨hbound, hsafe⟩ := hdrain hc0
    obtain ⟨D, heq, hp, hpc, hbuf, hnb, hmm, hcurD, hlaD⟩ :=
      action_alloc_spec ed p0 hbound hsafe
    refine ⟨setAction D (ed.action_count + 1)
        (fun a => { a with change := ({} : Change) :: a.change }), [], ?_, ?_, ?_, ?_, ?_, ?_, ?_, ?_⟩
    · rw [change_alloc, if_pos hc0, heq]
      rfl
    · rw [lookupPiece_setAction]
      exact hp
    · exact hpc
    · exact hbuf
    · exact hnb
    · exact hmm
    · show D.current_action ≠ 0
      rw [hcurD]
      exact Nat.succ_ne_zero _
    · show lookupAction _ D.current_action = _
      rw [hcurD, lookupAction_setAction, if_pos rfl, hlaD]
      rfl
  · obtain ⟨a0, ha0⟩ := hcur hc0
    refine ⟨setAction ed ed.current_action
        (fun a => { a with change := ({} : Change) :: a.change }), a0.change,
      change_alloc_cur ed hc0, rfl, rfl, rfl, rfl, rfl, hc0, ?_⟩
    show lookupAction _ ed.current_action = _
    rw [lookupAction_setAction, if_pos rfl, ha0]
    rfl

/-- Dropping the last element of an appended singleton. -/
theorem dropLast_append_single (l : List Nat) (a : Nat) : (l ++ [a]).dropLast = l := by
  simp

/-- The head of a linked chain is a live piece, hence nonzero. -/
theorem linksOK_head_ne_zero (ed : Editor) (prev pid : Nat) (rest : List Nat)
    (h : linksOK ed prev (pid :: rest) = true) : pid ≠ 0 := by
  intro h0
  subst h0
  rw [linksOK] at h
  simp [lookupPiece] at h

/-- Every linked chain ends in the end sentinel (index 2). -/
theorem linksOK_decomp (ed : Editor) : ∀ (l : List Nat) (prev : Nat),
    linksOK ed prev l = true → ∃ lf, l = lf ++ [2] := by
  intro l
  induction l with
  | nil =>
    intro prev h
    rw [linksOK] at h
    exact absurd h (by simp)
  | cons pid rest ih =>
    intro prev h
    rw [linksOK] at h
    rcases hv : lookupPiece ed pid with _ | v
    · rw [hv] at h
      simp at h
    rw [hv] at h
    rcases rest with _ | ⟨nxt, rs⟩
    · simp only [Bool.and_eq_true, decide_eq_true_eq] at h
      obtain ⟨-, h2, -⟩ := h
      exact ⟨[], by simp [h2]⟩
    · simp only [Bool.and_eq_true, decide_eq_true_eq] at h
      obtain ⟨-, -, hrec⟩ := h
      obtain ⟨lf, hlf⟩ := ih pid hrec
      exact ⟨pid :: lf, by rw [hlf, List.cons_append]⟩

/-- The loop of piece_get agrees with the specification-side first-match
search over the chain in front of the end sentinel. -/
theorem piece_get_loop_spec (ed : Editor) (pos : Nat) :
    ∀ (lf : List Nat) (prev cur fuel q offq : Nat),
      linksOK ed prev (lf ++ [2]) = true →
      lf.length < fuel →
      spec_locate (chainPairs ed lf) pos cur = some (q, offq) →
      piece_get_loop ed pos cur (lf.headD 2) fuel = ⟨q, offq⟩ := by
  intro lf
  induction lf with
  | nil =>
    intro prev cur fuel q offq hl hf hs
    simp [chainPairs, spec_locate] at hs
  | cons pid rest ih =>
    intro prev cur fuel q offq hl hf hs
    rcases fuel with _ | fuel
    · exact absurd hf (by omega)
    rw [List.cons_append, linksOK] at hl
    rcases hv : lookupPiece ed pid with _ | v
    · rw [hv] at hl
      simp at hl
    rw [hv] at hl
    obtain ⟨nxt, rs2, hsplit⟩ : ∃ nxt rs2, rest ++ [2] = nxt :: rs2 := by
      rcases rest with _ | ⟨r, rs⟩
      · exact ⟨2, [], rfl⟩
      · exact ⟨r, rs ++ [2], List.cons_append r rs [2]⟩
    rw [hsplit] at hl
    simp only [Bool.and_eq_true, decide_eq_true_eq] at hl
    obtain ⟨hprev, hnxt, hrec⟩ := hl
    have hnz : nxt ≠ 0 := linksOK_head_ne_zero ed pid nxt rs2 hrec
    have hvn : ¬ v.next = 0 := by
      rw [hnxt]
      exact hnz
    simp only [chainPairs, List.map_cons, spec_locate, lenOf, hv] at hs
    have hhead : rest.headD 2 = nxt := by
      rcases rest with _ | ⟨r, rs⟩
      · exact (List.cons.inj hsplit).1
      · exact (List.cons.inj hsplit).1
    simp only [List.headD_cons]
    rw [piece_get_loop]
    simp only [hv]
    rw [if_neg hvn]
    by_cases hcond : cur ≤ pos ∧ pos ≤ cur + v.len
    · rw [if_pos hcond] at hs ⊢
      obtain ⟨h1, h2⟩ := Prod.mk.inj (Option.some.inj hs)
      rw [h1, h2]
    · rw [if_neg hcond] at hs ⊢
      have hlen : rest.length < fuel := by
        simp only [List.length_cons] at hf
        omega
      have hrec2 : linksOK ed pid (rest ++ [2]) = true := by
        rw [hsplit]
        exact hrec
      have := ih pid (cur + v.len) fuel q offq hrec2 hlen
        (by simpa [chainPairs] using hs)
      rw [hnxt, ← hhead]
      exact this

/-- Modelled from the spec: on any position within the covered range the
first-match search succeeds, and the offset it returns never exceeds the
length of the piece it names. -/
theorem spec_locate_total (pos : Nat) :
    ∀ (pls : List (Nat × Nat)) (cur : Nat), pls ≠ [] → cur ≤ pos →
      pos ≤ cur + sumLens pls →
      ∃ q offq len2, spec_locate pls pos cur = some (q, offq) ∧
        (q, len2) ∈ pls ∧ offq ≤ len2 := by
  intro pls
  induction pls with
  | nil =>
    intro cur h
    exact absurd rfl h
  | cons e rest ih =>
    obtain ⟨pid, len⟩ := e
    intro cur _ hcle hcover
    by_cases hcond : pos ≤ cur + len
    · refine ⟨pid, pos - cur, len, ?_, List.mem_cons_self _ _, by omega⟩
      rw [spec_locate, if_pos ⟨hcle, hcond⟩]
    · rcases rest with _ | ⟨e2, rest2⟩
      · exfalso
        simp [sumLens] at hcover
        omega
      · obtain ⟨q, offq, len2, hres, hmem, hle⟩ :=
          ih (cur + len) (by simp) (by omega)
            (by simp only [sumLens, List.map_cons, List.sum_cons] at hcover ⊢; omega)
        refine ⟨q, offq, len2, ?_, List.mem_cons_of_mem _ hmem, hle⟩
        rw [spec_locate, if_neg (fun h => hcond h.2)]
        exact hres

/-- Modelled from the spec: at the total-length position the first-match
search returns the last piece with offset equal to its full length,
provided that last piece is nonempty. -/
theorem spec_locate_at_end (r len : Nat) (hlen : 0 < len) :
    ∀ (pls : List (Nat × Nat)) (cur : Nat),
      spec_locate (pls ++ [(r, len)]) (cur + sumLens (pls ++ [(r, len)])) cur
        = some (r, len) := by
  intro pls
  induction pls with
  | nil =>
    intro cur
    rw [List.nil_append, spec_locate, if_pos]
    · have : sumLens [(r, len)] = len := by simp [sumLens]
      rw [this, Nat.add_sub_cancel_left]
    · constructor
      · exact Nat.le_add_right cur _
      · have : sumLens [(r, len)] = len := by simp [sumLens]
        rw [this]
  | cons e rest ih =>
    obtain ⟨pid, plen⟩ := e
    intro cur
    have hsum : cur + sumLens (((pid, plen) :: rest) ++ [(r, len)])
        = (cur + plen) + sumLens (rest ++ [(r, len)]) := by
      simp only [sumLens, List.cons_append, List.map_cons, List.sum_cons]
      omega
    rw [List.cons_append, spec_locate, if_neg, ← List.cons_append, hsum]
    · exact ih (cur + plen)
    · rintro ⟨-, h2⟩
      simp only [sumLens, List.cons_append, List.map_cons, List.sum_cons, List.map_append,
        List.sum_append, List.map_nil, List.sum_nil] at h2
      omega

/-- C7.  On a well-formed chain whose size matches its total length,
piece_get walks from the begin sentinel and returns, for every pos up to
size, exactly what the specification-side first-match search over the
closed cumulative ranges returns; such a match always exists and its
offset never exceeds the matched piece's length (so at a boundary the
piece to the left is returned with offset equal to its length);
piece_get(0) is the begin sentinel (index 1) with offset 0; and
piece_get(size) is the last real piece with offset equal to its length
whenever that piece is nonempty. -/
theorem C7_piece_get_locate (ed : Editor) (l : List Nat)
    (hl : isChain ed l = true)
    (hsize : ed.size = sumLens (chainPairs ed l.dropLast)) :
    (∀ pos q offq, spec_locate (chainPairs ed l.dropLast) pos 0 = some (q, offq) →
        piece_get ed pos = ⟨q, offq⟩) ∧
    (∀ pos, pos ≤ ed.size → ∃ q offq len2,
        spec_locate (chainPairs ed l.dropLast) pos 0 = some (q, offq) ∧
        (q, len2) ∈ chainPairs ed l.dropLast ∧ offq ≤ len2) ∧
    piece_get ed 0 = ⟨1, 0⟩ ∧
    (∀ l₀ r, l = l₀ ++ [r, 2] → 0 < lenOf ed r →
        piece_get ed ed.size = ⟨r, lenOf ed r⟩) := by
  rcases l with _ | ⟨p1, t⟩
  · rw [isChain] at hl
    exact absurd hl (by simp)
  rw [isChain] at hl
  simp only [Bool.and_eq_true, decide_eq_true_eq] at hl
  obtain ⟨⟨hp1, hlinks⟩, hlen⟩ := hl
  subst hp1
  obtain ⟨lf, hlf⟩ := linksOK_decomp ed (1 :: t) 0 hlinks
  rcases lf with _ | ⟨x, lf'⟩
  · exact absurd (List.cons.inj hlf).1 (by decide)
  obtain ⟨hx, ht⟩ := List.cons.inj hlf
  subst hx
  have hdrop : (1 :: t).dropLast = 1 :: lf' := by
    rw [hlf, dropLast_append_single]
  have hlinks2 : linksOK ed 0 ((1 :: lf') ++ [2]) = true := by
    rw [← hlf]
    exact hlinks
  have hfuel : (1 :: lf').length < ed.pieces.length + 2 := by
    have h1 : (1 :: t).length = ((1 :: lf') ++ [2]).length := by rw [hlf]
    simp only [List.length_cons, List.length_append] at h1 hlen ⊢
    omega
  have main : ∀ pos q offq,
      spec_locate (chainPairs ed (1 :: lf')) pos 0 = some (q, offq) →
      piece_get ed pos = ⟨q, offq⟩ := by
    intro pos q offq hspec
    rw [piece_get]
    exact piece_get_loop_spec ed pos (1 :: lf') 0 0 (ed.pieces.length + 2) q offq
      hlinks2 hfuel hspec
  rw [hdrop] at hsize
  refine ⟨?_, ?_, ?_, ?_⟩
  · intro pos q offq hspec
    rw [hdrop] at hspec
    exact main pos q offq hspec
  · intro pos hpos
    rw [hdrop]
    refine spec_locate_total pos (chainPairs ed (1 :: lf')) 0 (by simp [chainPairs])
      (Nat.zero_le pos) ?_
    rw [Nat.zero_add, ← hsize]
    exact hpos
  · have hspec0 : spec_locate (chainPairs ed (1 :: lf')) 0 0 = some (1, 0) := by
      simp only [chainPairs, List.map_cons, spec_locate]
      rw [if_pos ⟨Nat.le_refl 0, Nat.zero_le _⟩]
    exact main 0 1 0 hspec0
  · intro l₀ r hL hlenr
    have hdecomp : 1 :: lf' = l₀ ++ [r] := by
      have h1 : (1 :: t).dropLast = l₀ ++ [r] := by
        rw [hL, show l₀ ++ [r, 2] = (l₀ ++ [r]) ++ [2] by simp, dropLast_append_single]
      rw [hdrop] at h1
      exact h1
    have hend : spec_locate (chainPairs ed (1 :: lf')) ed.size 0 = some (r, lenOf ed r) := by
      rw [hdecomp]
      have hmap : chainPairs ed (l₀ ++ [r])
          = chainPairs ed l₀ ++ [(r, lenOf ed r)] := by
        simp [chainPairs]
      rw [hmap]
      have := spec_locate_at_end r (lenOf ed r) hlenr (chainPairs ed l₀) 0
      rw [Nat.zero_add] at this
      have hs2 : ed.size = sumLens (chainPairs ed l₀ ++ [(r, lenOf ed r)]) := by
        rw [hsize, hdecomp, hmap]
      rw [hs2]
      exact this
    exact main ed.size r (lenOf ed r) hend

/-- Witness for C7 at the editor loaded with "abc" (chain [1, 3, 2]). -/
theorem C7_piece_get_locate_witness :
    isChain c7wit [1, 3, 2] = true ∧
    piece_get c7wit 0 = ⟨1, 0⟩ ∧
    piece_get c7wit c7wit.size = ⟨3, lenOf c7wit 3⟩ :=
  ⟨by decide,
   (C7_piece_get_locate c7wit [1, 3, 2] (by decide) (by decide)).2.2.1,
   (C7_piece_get_locate c7wit [1, 3, 2] (by decide) (by decide)).2.2.2 [1] 3 rfl
     (by decide)⟩

/-- C9.  editor_undo and editor_redo mutate only the piece-graph links,
the size and the undo/redo stacks: current_action, cache and saved_action
(and the buffers, the action arena, the piece counter and every piece's
content view) are left unchanged.  In particular a current_action left
open at the time of undo() continues to receive the Changes of subsequent
edits: after an undo, a successful slow-path insert prepends its change
to the still-current action. -/
theorem C9_undo_redo_frame :
    (∀ ed : Editor,
      (editor_undo ed).1.current_action = ed.current_action ∧
      (editor_undo ed).1.cache = ed.cache ∧
      (editor_undo ed).1.saved_action = ed.saved_action ∧
      (editor_undo ed).1.buffers = ed.buffers ∧
      (editor_undo ed).1.actions = ed.actions ∧
      (editor_undo ed).1.piece_count = ed.piece_count ∧
      ∀ pid, (lookupPiece (editor_undo ed).1 pid).map pieceData
               = (lookupPiece ed pid).map pieceData) ∧
    (∀ ed : Editor,
      (editor_redo ed).1.current_action = ed.current_action ∧
      (editor_redo ed).1.cache = ed.cache ∧
      (editor_redo ed).1.saved_action = ed.saved_action ∧
      (editor_redo ed).1.buffers = ed.buffers ∧
      (editor_redo ed).1.actions = ed.actions ∧
      (editor_redo ed).1.piece_count = ed.piece_count ∧
      ∀ pid, (lookupPiece (editor_redo ed).1 pid).map pieceData
               = (lookupPiece ed pid).map pieceData) ∧
    (∀ (ed : Editor) (a : Action) (pos : Nat) (text : List Byte) (p off : Nat) (v : Piece),
      ed.current_action ≠ 0 →
      lookupAction (editor_undo ed).1 ed.current_action = some a →
      piece_get (editor_undo ed).1 pos = ⟨p, off⟩ →
      cache_insert (editor_undo ed).1 p off text = none →
      lookupPiece (editor_undo ed).1 p = some v →
      (editor_insert (editor_undo ed).1 pos text []).1.2 = true ∧
      (editor_insert (editor_undo ed).1 pos text []).1.1.current_action = ed.current_action ∧
      ∃ c, lookupAction (editor_insert (editor_undo ed).1 pos text []).1.1 ed.current_action
             = some { change := c :: a.change }) := by
  refine ⟨?_, ?_, ?_⟩
  · intro ed
    obtain ⟨h1, h2, h3, h4, h5, h6, h7, h8, h9⟩ := editor_undo_frame ed
    exact ⟨h1, h2, h3, h4, h6, h7, h9⟩
  · intro ed
    obtain ⟨h1, h2, h3, h4, h5, h6, h7, h8, h9⟩ := editor_redo_frame ed
    exact ⟨h1, h2, h3, h4, h6, h7, h9⟩
  · intro ed a pos text p off v hc ha hloc hfast hv
    have hcur : (editor_undo ed).1.current_action = ed.current_action :=
      (editor_undo_frame ed).1
    have hc2 : (editor_undo ed).1.current_action ≠ 0 := by
      rw [hcur]
      exact hc
    have ha2 : lookupAction (editor_undo ed).1 (editor_undo ed).1.current_action = some a := by
      rw [hcur]
      exact ha
    obtain ⟨g1, g2, g3⟩ :=
      insert_appends_change (editor_undo ed).1 pos text a p off v hc2 ha2 hloc hfast hv
    rw [hcur] at g2 g3
    exact ⟨g1, g2, g3⟩

/-- Witness for C9 at the concrete state stA (one insert, current action
open, then undo). -/
theorem C9_undo_redo_frame_witness :
    stA.current_action ≠ 0 ∧
    (editor_insert (editor_undo stA).1 0 [98] []).1.2 = true :=
  ⟨by decide,
   (C9_undo_redo_frame.2.2 stA ⟨[⟨⟨0, 0, 0⟩, ⟨3, 3, 1⟩⟩]⟩ 0 [98] 1 0 ⟨0, 2, ⟨0, 0⟩, 0⟩
      (by decide) (by decide) (by decide) (by decide) (by decide)).1⟩

/-- C10.  editor_replace ignores the results of the underlying delete and
insert and returns true for every input; in the concrete state c10ed
(content "ab") the call replace(1, "XY") has its delete fail the range
check while the insert succeeds, leaving the partially modified document
"aXYb". -/
theorem C10_replace_always_true :
    (∀ ed pos text o, (editor_replace ed pos text o).1.2 = true) ∧
    (editor_delete c10ed 1 2 []).1.2 = false ∧
    (editor_replace c10ed 1 [88, 89] []).1.2 = true ∧
    readContent (editor_replace c10ed 1 [88, 89] []).1.1 = [97, 88, 89, 98] ∧
    readContent c10ed = [97, 98] := by
  refine ⟨?_, by decide, by decide, by decide, by decide⟩
  intro ed pos text o
  rw [editor_replace]

/-- An arena update never changes the number of entries. -/
theorem aupdate_length (k : Nat) (f : α → α) : ∀ l : List (Nat × α),
    (aupdate k f l).length = l.length := by
  intro l
  induction l with
  | nil => rfl
  | cons e rest ih =>
    obtain ⟨k2, v⟩ := e
    by_cases h : k2 = k
    · simp [aupdate, h, ih]
    · simp [aupdate, h, ih]

/-- The piece arena after piece_init is an in-place update. -/
theorem piece_init_pieces (ed : Editor) (pid a b : Nat) (c : Ptr) (l : Nat) :
    (piece_init ed pid a b c l).pieces =
      aupdate pid (fun _ => { prev := a, next := b, content := c, len := l }) ed.pieces := rfl

/-- Unfold one step of the span_init length loop. -/
theorem span_init_loop_succ (ed : Editor) (stop pid acc f : Nat) :
    span_init_loop ed stop pid acc (f + 1) =
      match lookupPiece ed pid with
      | none => acc
      | some p =>
        if pid = stop then acc + p.len
        else span_init_loop ed stop p.next (acc + p.len) f := rfl

/-- Dereference of pieces on a fully explicit editor literal. -/
theorem lookupPiece_mk (bufs : List Buffer) (nb : Nat) (mm : Buffer)
    (P : List (Nat × Piece)) (pc ca : Nat) (u r : List Nat)
    (A : List (Nat × Action)) (acnt cur sa sz : Nat) (j : Nat) :
    lookupPiece
      { buffers := bufs, nextBufId := nb, mmapBuf := mm, pieces := P,
        piece_count := pc, cache := ca, undo := u, redo := r, actions := A,
        action_count := acnt, current_action := cur, saved_action := sa,
        size := sz } j = if j = 0 then none else alookup j P := rfl

/-- Reading bytes depends only on the buffer list and the mmap buffer. -/
theorem sliceBytes_ext {a b : Editor} (hb : a.buffers = b.buffers)
    (hm : a.mmapBuf = b.mmapBuf) (ptr : Ptr) (len : Nat) :
    sliceBytes a ptr len = sliceBytes b ptr len := by
  simp [sliceBytes, lookupBuffer, hb, hm]

/-- setChangeHead (an action write) leaves the piece arena alone. -/
theorem lookupPiece_setChangeHead (ed : Editor) (o n : Span) (j : Nat) :
    lookupPiece (setChangeHead ed o n) j = lookupPiece ed j := rfl

/-- cache_piece leaves the piece arena alone. -/
theorem lookupPiece_cache_piece (ed : Editor) (pid j : Nat) :
    lookupPiece (cache_piece ed pid) j = lookupPiece ed j :=
  lookupPiece_ext (cache_piece_fields ed pid).2.1 j

/-- span_swap in the replace case of a one-piece span: a piece identifier
distinct from the two link-write targets dereferences as before. -/
theorem span_swap_replace_lookup (ed : Editor) (o n : Span) (v : Piece) (j : Nat)
    (hstop : o.stop = o.start)
    (hL : o.len ≠ 0) (hn : n.len ≠ 0)
    (hv : lookupPiece ed o.start = some v)
    (hvp : v.prev ≠ o.start)
    (hj1 : j ≠ v.prev) (hj2 : j ≠ v.next) :
    lookupPiece (span_swap ed o n) j = lookupPiece ed j := by
  have h1 : ¬(o.len = 0 ∧ n.len = 0) := fun h => hL h.1
  have hlp1 : lookupPiece (setPiece ed v.prev (fun q => { q with next := n.start })) o.start
      = some v := by
    rw [lookupPiece_setPiece, if_neg (fun h => hvp h.symm), hv]
  rw [span_swap, if_neg h1, if_neg hL, if_neg hn, hstop]
  simp only [hv, hlp1]
  rw [lookupPiece_set_size, lookupPiece_setPiece, if_neg hj2, lookupPiece_setPiece, if_neg hj1]

/-- buffer_store with an exhausted oracle stores exactly the given bytes:
reading the returned pointer back yields them. -/
theorem buffer_store_bytes (X : Editor) (text : List Byte)
    (hnb : 2 ≤ X.nextBufId)
    (hid1 : ∀ b ∈ X.buffers, b.id ≠ 1)
    (hlen : ∀ b ∈ X.buffers, b.data.length = b.pos) :
    ∃ Y ptr, buffer_store X text [] = (some (Y, ptr), []) ∧
      sliceBytes Y ptr text.length = text := by
  have hnb1 : X.nextBufId ≠ 1 := by omega
  simp only [buffer_store]
  rcases hb : X.buffers with _ | ⟨buf, rest⟩
  · simp only [hb, buffer_alloc_nil_oracle, Bool.not_false, if_true, buffer_append]
    refine ⟨_, _, rfl, ?_⟩
    simp [sliceBytes, lookupBuffer, hnb1, List.find?]
  · by_cases hcap : buffer_capacity buf text.length
    · simp only [hb, hcap, Bool.not_true, Bool.false_eq_true, if_false, buffer_append]
      refine ⟨_, _, rfl, ?_⟩
      have hbid : buf.id ≠ 1 := hid1 buf (by rw [hb]; exact List.mem_cons_self _ _)
      have hlb : buf.data.length = buf.pos := hlen buf (by rw [hb]; exact List.mem_cons_self _ _)
      simp [sliceBytes, lookupBuffer, hbid, List.find?]
      rw [← hlb, List.drop_left, List.take_length]
    · rw [Bool.not_eq_true] at hcap
      simp only [hb, hcap, Bool.not_false, if_true, buffer_alloc_nil_oracle, buffer_append]
      refine ⟨_, _, rfl, ?_⟩
      simp [sliceBytes, lookupBuffer, hnb1, List.find?]

/-- C6.  A slow-path insert at a strictly interior offset of the located
piece (locate(pos) = (p, off) with 0 < off < p.len) creates exactly three
fresh pieces — Before with the located piece's content view truncated to
`off`, N holding the stored bytes, and After with the content view advanced
by `off` and the remaining length — linked Before↔N↔After with
Before.prev = p.prev and After.next = p.next, and records on the current
action a change whose old span is [p, p] and whose new span is
[Before, After].  The hypotheses are the well-formedness facts the C code
assumes of its own heap: live piece indices and links are bounded by the
allocation counter, the located piece is not its own predecessor, heap
buffers are exactly filled and never carry the mmap identifier, an open
current action dereferences, and with no open action the redo actions are
bounded and do not claim the located piece on a new-side endpoint. -/
theorem C6_midway_insert (ed : Editor) (pos : Nat) (text : List Byte) (p off : Nat) (v : Piece)
    (hloc : piece_get ed pos = ⟨p, off⟩)
    (hv : lookupPiece ed p = some v)
    (hoff0 : 0 < off) (hofflt : off < v.len)
    (hfast : cache_insert ed p off text = none)
    (hbound : ∀ k q, alookup k ed.pieces = some q →
        k ≤ ed.piece_count ∧ q.prev ≤ ed.piece_count ∧ q.next ≤ ed.piece_count)
    (hvpne : v.prev ≠ p)
    (hnb : 2 ≤ ed.nextBufId)
    (hid1 : ∀ b ∈ ed.buffers, b.id ≠ 1)
    (hblen : ∀ b ∈ ed.buffers, b.data.length = b.pos)
    (hcur : ed.current_action ≠ 0 → ∃ a0, lookupAction ed ed.current_action = some a0)
    (hdrain : ed.current_action = 0 →
      (∀ aid ∈ ed.redo, aid ≤ ed.action_count) ∧
      (∀ aid ∈ ed.redo, ∀ a, lookupAction ed aid = some a →
          ∀ c ∈ a.change, c.new.start ≠ p ∧ c.new.stop ≠ p)) :
    (editor_insert ed pos text []).1.2 = true ∧
    (editor_insert ed pos text []).1.1.piece_count = ed.piece_count + 3 ∧
    lookupPiece (editor_insert ed pos text []).1.1 (ed.piece_count + 1)
      = some { prev := v.prev, next := ed.piece_count + 2, content := v.content, len := off } ∧
    (∃ ptr, lookupPiece (editor_insert ed pos text []).1.1 (ed.piece_count + 2)
        = some { prev := ed.piece_count + 1, next := ed.piece_count + 3,
                 content := ptr, len := text.length } ∧
      sliceBytes (editor_insert ed pos text []).1.1 ptr text.length = text) ∧
    lookupPiece (editor_insert ed pos text []).1.1 (ed.piece_count + 3)
      = some { prev := ed.piece_count + 2, next := v.next,
               content := ⟨v.content.bufId, v.content.off + off⟩, len := v.len - off } ∧
    (∃ cs, lookupAction (editor_insert ed pos text []).1.1
        (editor_insert ed pos text []).1.1.current_action
      = some { change :=
          ({ old := ⟨p, p, v.len⟩,
             new := ⟨ed.piece_count + 1, ed.piece_count + 3,
                     off + text.length + (v.len - off)⟩ } : Change) :: cs }) := by
  have hp0 : p ≠ 0 := by
    intro h
    rw [h, lookupPiece, if_pos rfl] at hv
    exact absurd hv (by simp)
  have hvarena : alookup p ed.pieces = some v := by
    rw [lookupPiece, if_neg hp0] at hv
    exact hv
  obtain ⟨hple, hprevle, hnextle⟩ := hbound p v hvarena
  have hne : off ≠ v.len := Nat.ne_of_lt hofflt
  obtain ⟨X1, cs, hca, hX1p, hX1pc, hX1buf, hX1nb, hX1mm, hX1cur, hX1la⟩ :=
    change_alloc_spec ed p hcur hdrain
  obtain ⟨Y, ptr, hbs, hYpieces, hYpc, hYactions, hYcur, hYcache, hYundo, hYredo,
    hYacnt, hYmm, hYsize⟩ := buffer_store_spec X1 text
  obtain ⟨Y2, ptr2, hbs2, hslice⟩ := buffer_store_bytes X1 text
    (by rw [hX1nb]; exact hnb)
    (by rw [hX1buf]; exact hid1)
    (by rw [hX1buf]; exact hblen)
  rw [hbs] at hbs2
  have hYe2 : Y = Y2 ∧ ptr = ptr2 := by
    simp only [Prod.mk.injEq, Option.some.injEq, and_true] at hbs2
    exact hbs2
  rw [← hYe2.1, ← hYe2.2] at hslice
  have hYpc2 : Y.piece_count = ed.piece_count := hYpc.trans hX1pc
  have hYp : lookupPiece Y p = some v :=
    (lookupPiece_ext hYpieces p).trans (hX1p.trans hv)
  have hYcur0 : Y.current_action ≠ 0 := by
    rw [hYcur]
    exact hX1cur
  have hYla : lookupAction Y Y.current_action = some { change := ({} : Change) :: cs } := by
    rw [hYcur, lookupAction_ext hYactions]
    exact hX1la
  set X5 : Editor := piece_init (piece_init (piece_init
      { Y with piece_count := Y.piece_count + 1 + 1 + 1,
               pieces := (Y.piece_count + 1 + 1 + 1, ({} : Piece)) ::
                         (Y.piece_count + 1 + 1, ({} : Piece)) ::
                         (Y.piece_count + 1, ({} : Piece)) :: Y.pieces }
      (Y.piece_count + 1) v.prev (Y.piece_count + 1 + 1) v.content off)
      (Y.piece_count + 1 + 1) (Y.piece_count + 1) (Y.piece_count + 1 + 1 + 1) ptr text.length)
      (Y.piece_count + 1 + 1 + 1) (Y.piece_count + 1 + 1) v.next
      ⟨v.content.bufId, v.content.off + off⟩ (v.len - off) with hX5def
  set cnew : Span := span_init X5 (Y.piece_count + 1) (Y.piece_count + 1 + 1 + 1) with hcnew_def
  set cold : Span := span_init X5 p p with hcold_def
  have hrun : editor_insert ed pos text [] =
      ((span_swap (cache_piece (setChangeHead X5 cold cnew) (Y.piece_count + 1 + 1))
          cold cnew, true), []) := by
    simp only [editor_insert, hloc, hfast, hv, hca, hbs, hne, if_false]
    rfl
  have hpY : p ≤ Y.piece_count := by omega
  have hprevY : v.prev ≤ Y.piece_count := by omega
  have hnextY : v.next ≤ Y.piece_count := by omega
  have hBlook : lookupPiece X5 (Y.piece_count + 1)
      = some { prev := v.prev, next := Y.piece_count + 1 + 1, content := v.content,
               len := off } := by
    rw [hX5def, piece_init, lookupPiece_setPiece, if_neg (by omega),
      piece_init, lookupPiece_setPiece, if_neg (by omega),
      piece_init, lookupPiece_setPiece, if_pos rfl,
      lookupPiece_mk, if_neg (by omega),
      alookup, if_neg (by omega), alookup, if_neg (by omega), alookup, if_pos rfl]
    rfl
  have hNlook : lookupPiece X5 (Y.piece_count + 1 + 1)
      = some { prev := Y.piece_count + 1, next := Y.piece_count + 1 + 1 + 1,
               content := ptr, len := text.length } := by
    rw [hX5def, piece_init, lookupPiece_setPiece, if_neg (by omega),
      piece_init, lookupPiece_setPiece, if_pos rfl,
      piece_init, lookupPiece_setPiece, if_neg (by omega),
      lookupPiece_mk, if_neg (by omega),
      alookup, if_neg (by omega), alookup, if_pos rfl]
    rfl
  have hAlook : lookupPiece X5 (Y.piece_count + 1 + 1 + 1)
      = some { prev := Y.piece_count + 1 + 1, next := v.next,
               content := ⟨v.content.bufId, v.content.off + off⟩, len := v.len - off } := by
    rw [hX5def, piece_init, lookupPiece_setPiece, if_pos rfl,
      piece_init, lookupPiece_setPiece, if_neg (by omega),
      piece_init, lookupPiece_setPiece, if_neg (by omega),
      lookupPiece_mk, if_neg (by omega),
      alookup, if_pos rfl]
    rfl
  have hPlook : lookupPiece X5 p = some v := by
    rw [hX5def, piece_init, lookupPiece_setPiece, if_neg (by omega),
      piece_init, lookupPiece_setPiece, if_neg (by omega),
      piece_init, lookupPiece_setPiece, if_neg (by omega),
      lookupPiece_mk, if_neg hp0,
      alookup, if_neg (by omega), alookup, if_neg (by omega), alookup, if_neg (by omega)]
    have hX1v : alookup p X1.pieces = some v := by
      have h := hX1p.trans hv
      rw [lookupPiece, if_neg hp0] at h
      exact h
    rw [hYpieces]
    exact hX1v
  have hlen5 : X5.pieces.length = Y.pieces.length + 3 := by
    rw [hX5def, piece_init_pieces, piece_init_pieces, piece_init_pieces,
      aupdate_length, aupdate_length, aupdate_length]
    rfl
  have hfuel : X5.pieces.length + 2 = Y.pieces.length + 2 + 1 + 1 + 1 := by
    rw [hlen5]
  have hne13 : Y.piece_count + 1 ≠ Y.piece_count + 1 + 1 + 1 := by omega
  have hne23 : Y.piece_count + 1 + 1 ≠ Y.piece_count + 1 + 1 + 1 := by omega
  have hcoldval : cold = ⟨p, p, v.len⟩ := by
    rw [hcold_def, span_init, hfuel]
    simp only [span_init_loop_succ, hPlook, eq_self_iff_true, if_true, Nat.zero_add]
  have hcnewval : cnew = ⟨Y.piece_count + 1, Y.piece_count + 1 + 1 + 1,
      off + text.length + (v.len - off)⟩ := by
    rw [hcnew_def, span_init, hfuel]
    simp only [span_init_loop_succ, hBlook, hNlook, hAlook, hne13, hne23,
      eq_self_iff_true, if_true, if_false, Nat.zero_add]
  have hX5cur : X5.current_action = Y.current_action := by
    rw [hX5def]
    rfl
  have hX5actions : X5.actions = Y.actions := by
    rw [hX5def]
    rfl
  have hstop : cold.stop = cold.start := by rw [hcoldval]
  have hL : cold.len ≠ 0 := by
    rw [hcoldval]
    show v.len ≠ 0
    omega
  have hnlen : cnew.len ≠ 0 := by
    rw [hcnewval]
    show off + text.length + (v.len - off) ≠ 0
    omega
  have hcoldstart : cold.start = p := by rw [hcoldval]
  have hv7 : lookupPiece (cache_piece (setChangeHead X5 cold cnew) (Y.piece_count + 1 + 1))
      cold.start = some v := by
    rw [hcoldstart, lookupPiece_cache_piece, lookupPiece_setChangeHead]
    exact hPlook
  have hvp7 : v.prev ≠ cold.start := by
    rw [hcoldstart]
    exact hvpne
  have hcurE : (span_swap (cache_piece (setChangeHead X5 cold cnew) (Y.piece_count + 1 + 1))
      cold cnew).current_action = Y.current_action := by
    rw [span_swap_current, cache_piece_current]
    rw [setChangeHead, setAction_current]
    exact hX5cur
  have hEbuf : (span_swap (cache_piece (setChangeHead X5 cold cnew) (Y.piece_count + 1 + 1))
      cold cnew).buffers = Y.buffers := by
    rw [(span_swap_FrameOK _ _ _).1, (cache_piece_fields _ _).1]
    rw [hX5def]
    rfl
  have hEmm : (span_swap (cache_piece (setChangeHead X5 cold cnew) (Y.piece_count + 1 + 1))
      cold cnew).mmapBuf = Y.mmapBuf := by
    rw [(span_swap_FrameOK _ _ _).2.1, (cache_piece_fields _ _).2.2.2.2.2.2.2.2]
    rw [hX5def]
    rfl
  simp only [hrun]
  refine ⟨trivial, ?_, ?_, ⟨ptr, ?_, ?_⟩, ?_, ?_⟩
  · rw [(span_swap_FrameOK _ _ _).2.2.2.2.2.1, (cache_piece_fields _ _).2.2.1, ← hYpc2]
    rw [setChangeHead]
    show X5.piece_count = Y.piece_count + 3
    rw [hX5def]
    rfl
  · rw [← hYpc2]
    rw [span_swap_replace_lookup _ cold cnew v (Y.piece_count + 1)
      hstop hL hnlen hv7 hvp7 (by omega) (by omega)]
    rw [lookupPiece_cache_piece, lookupPiece_setChangeHead, hBlook]
  · rw [← hYpc2]
    rw [span_swap_replace_lookup _ cold cnew v (Y.piece_count + 2)
      hstop hL hnlen hv7 hvp7 (by omega) (by omega)]
    rw [lookupPiece_cache_piece, lookupPiece_setChangeHead]
    exact hNlook
  · rw [sliceBytes_ext hEbuf hEmm]
    exact hslice
  · rw [← hYpc2]
    rw [span_swap_replace_lookup _ cold cnew v (Y.piece_count + 3)
      hstop hL hnlen hv7 hvp7 (by omega) (by omega)]
    rw [lookupPiece_cache_piece, lookupPiece_setChangeHead]
    exact hAlook
  · rw [← hYpc2, hcurE]
    refine ⟨cs, ?_⟩
    rw [lookupAction_span_swap, lookupAction_cache_piece, setChangeHead,
      lookupAction_setAction, if_pos (by rw [hX5cur]), lookupAction_ext hX5actions, hYla,
      Option.map_some']
    show some ({ change := ({ old := cold, new := cnew } : Change) :: cs } : Action) = _
    rw [hcoldval, hcnewval]

/-- Witness for C6 at the editor loaded with "abc": insert(1, "x") locates
piece 3 at offset 1 and splits it into Before = 4, N = 5 and After = 6. -/
theorem C6_midway_insert_witness :
    (piece_get c7wit 1 = ⟨3, 1⟩ ∧ lookupPiece c7wit 3 = some ⟨1, 2, ⟨1, 0⟩, 3⟩) ∧
    (editor_insert c7wit 1 [120] []).1.2 = true ∧
    (editor_insert c7wit 1 [120] []).1.1.piece_count = 6 ∧
    lookupPiece (editor_insert c7wit 1 [120] []).1.1 4 = some ⟨1, 5, ⟨1, 0⟩, 1⟩ ∧
    (∃ ptr, lookupPiece (editor_insert c7wit 1 [120] []).1.1 5 = some ⟨4, 6, ptr, 1⟩ ∧
      sliceBytes (editor_insert c7wit 1 [120] []).1.1 ptr 1 = [120]) ∧
    lookupPiece (editor_insert c7wit 1 [120] []).1.1 6 = some ⟨5, 2, ⟨1, 1⟩, 2⟩ ∧
    (∃ cs, lookupAction (editor_insert c7wit 1 [120] []).1.1
        (editor_insert c7wit 1 [120] []).1.1.current_action
      = some { change := ({ old := ⟨3, 3, 3⟩, new := ⟨4, 6, 4⟩ } : Change) :: cs }) :=
  ⟨⟨by decide, by decide⟩,
   C6_midway_insert c7wit 1 [120] 3 1 ⟨1, 2, ⟨1, 0⟩, 3⟩
     (by decide) (by decide) (by decide) (by decide) (by decide)
     (by
       intro k q h
       have hp : c7wit.pieces =
           [(3, (⟨1, 2, ⟨1, 0⟩, 3⟩ : Piece)), (1, ⟨0, 3, ⟨0, 0⟩, 0⟩), (2, ⟨3, 0, ⟨0, 0⟩, 0⟩)] :=
         by decide
       have hc : c7wit.piece_count = 3 := by decide
       rw [hp] at h
       rw [hc]
       by_cases h3 : (3 : Nat) = k
       · subst h3
         rw [alookup, if_pos rfl] at h
         injection h with h'
         subst h'
         exact ⟨by decide, by decide, by decide⟩
       · rw [alookup, if_neg h3] at h
         by_cases h1 : (1 : Nat) = k
         · subst h1
           rw [alookup, if_pos rfl] at h
           injection h with h'
           subst h'
           exact ⟨by decide, by decide, by decide⟩
         · rw [alookup, if_neg h1] at h
           by_cases h2 : (2 : Nat) = k
           · subst h2
             rw [alookup, if_pos rfl] at h
             injection h with h'
             subst h'
             exact ⟨by decide, by decide, by decide⟩
           · rw [alookup, if_neg h2, alookup] at h
             exact absurd h (by simp))
     (by decide) (by decide)
     (by
       have hbufs : c7wit.buffers = [] := by decide
       rw [hbufs]
       exact fun b hb => absurd hb (List.not_mem_nil b))
     (by
       have hbufs : c7wit.buffers = [] := by decide
       rw [hbufs]
       exact fun b hb => absurd hb (List.not_mem_nil b))
     (fun h => absurd (by decide : c7wit.current_action = 0) h)
     (fun _ => by
       have hredo : c7wit.redo = [] := by decide
       rw [hredo]
       exact ⟨fun aid h => absurd h (List.not_mem_nil aid),
              fun aid h => absurd h (List.not_mem_nil aid)⟩)⟩

end PieceTable
